import Mathlib

/-!
Verification development for the local-poker repository.

Shallow embedding of:
  * `src/server/game/Card.js`       — card representation
  * `src/server/game/HandEvaluator.js` — hand evaluation
  * `src/server/game/Room.js`       — the PokerGame betting/showdown state machine
  * `src/server/ai/AIDecisionEngine.js` — decision sampling engine

JavaScript numbers are modelled as rationals (ℚ); integer card values as ℕ.
JS arrays are Lean lists.  The deck is modelled with the top of the deck at
the head of the list (the JS code pops from the end of its array).
`Array.prototype.sort` is stable (ECMA-262); stable sorts are modelled by
insertion sorts that preserve the relative order of comparator-equal elements.
-/

namespace LocalPoker

/-! ## Card (src/server/game/Card.js) -/

/-- The four suits, from `SUITS` in Card.js. -/
inductive Suit
  | hearts
  | diamonds
  | clubs
  | spades
deriving DecidableEq, Repr, Fintype

/-- A card.  `value` is the numeric rank value from `RANK_VALUES`
(2–14, where 14 is the ace); the `rank` string of the source is in
bijection with `value`, so only the value is carried. -/
structure Card where
  value : Nat
  suit : Suit
deriving DecidableEq, Repr

/-! ## HandEvaluator (src/server/game/HandEvaluator.js) -/

/-- Comparing an exhausted first array against the rest of the second:
`0 - b[i]` at the first nonzero entry, else 0. -/
def cmpZeros : List Nat → Int
  | [] => 0
  | b :: bs => if b ≠ 0 then -(b : Int) else cmpZeros bs

/-- `HandEvaluator.compareScores`: walk both arrays, padding missing
entries with 0 (`a[i] || 0`), and return `va - vb` at the first index
where they differ, else 0. -/
def cmpScores : List Nat → List Nat → Int
  | [], b => cmpZeros b
  | a :: as, [] => if a ≠ 0 then (a : Int) else cmpScores as []
  | a :: as, b :: bs => if a ≠ b then (a : Int) - (b : Int) else cmpScores as bs

/-- `HandEvaluator._combinations`: all k-element combinations of `arr`,
in the order produced by the source's recursion (elements keep their
relative order; combinations starting with earlier elements come first). -/
def combinations {α : Type} : List α → Nat → List (List α)
  | _, 0 => [[]]
  | [], _ + 1 => []
  | x :: xs, k + 1 => (combinations xs k).map (fun c => x :: c) ++ combinations xs (k + 1)

/-- Insert into a descending-sorted list (used to model
`sort((a, b) => b - a)` on numbers, where equal elements are
interchangeable). -/
def insertDescNat (x : Nat) : List Nat → List Nat
  | [] => [x]
  | y :: ys => if y ≤ x then x :: y :: ys else y :: insertDescNat x ys

/-- Numeric sort in descending order. -/
def sortDescNat (l : List Nat) : List Nat := l.foldr insertDescNat []

/-- Comparator for the rank-count groups:
`sort((a, b) => b.count - a.count || b.value - a.value)` — count
descending, then value descending.  `a` comes strictly before `b`. -/
def groupBefore (a b : Nat × Nat) : Bool := b.2 < a.2 || (a.2 == b.2 && b.1 < a.1)

def insertGroup (x : Nat × Nat) : List (Nat × Nat) → List (Nat × Nat)
  | [] => [x]
  | y :: ys => if groupBefore x y then x :: y :: ys else y :: insertGroup x ys

/-- The rank-count groups of `_evaluate5`: one `(value, count)` entry per
distinct value, sorted by count descending then value descending.  The
source builds a `counts` object and sorts `Object.entries(counts)`; the
comparator is a total order on the distinct values, so the enumeration
order of the object is irrelevant. -/
def groupsOf (values : List Nat) : List (Nat × Nat) :=
  (values.dedup.map (fun v => (v, values.count v))).foldr insertGroup []

/-- `HandEvaluator._evaluate5` — score a 5-card hand.  Returns the score
array `[handRank, ...tiebreakers]`. -/
def evaluate5 (cards : List Card) : List Nat :=
  let values := sortDescNat (cards.map Card.value)
  let suits := cards.map Card.suit
  let isFlush := suits.all (fun s => s == suits.headD Suit.hearts)
  let v0 := values.getD 0 0
  let v1 := values.getD 1 0
  let v2 := values.getD 2 0
  let v3 := values.getD 3 0
  let v4 := values.getD 4 0
  let isWheel := v0 == 14 && v1 == 5 && v2 == 4 && v3 == 3 && v4 == 2
  let isStraight := isWheel || (v0 - v4 == 4 && values.dedup.length == 5)
  let groups := groupsOf values
  let g0 := groups.getD 0 (0, 0)
  let g1 := groups.getD 1 (0, 0)
  let g2 := groups.getD 2 (0, 0)
  if isFlush && isStraight && v0 == 14 && v4 == 10 then
    [10]
  else if isFlush && isStraight then
    [9, if isWheel then 5 else v0]
  else if g0.2 == 4 then
    [8, g0.1, g1.1]
  else if g0.2 == 3 && g1.2 == 2 then
    [7, g0.1, g1.1]
  else if isFlush then
    6 :: values
  else if isStraight then
    [5, if isWheel then 5 else v0]
  else if g0.2 == 3 then
    4 :: g0.1 :: sortDescNat ((groups.drop 1).map Prod.fst)
  else if g0.2 == 2 && g1.2 == 2 then
    let pairs := sortDescNat [g0.1, g1.1]
    [3, pairs.getD 0 0, pairs.getD 1 0, g2.1]
  else if g0.2 == 2 then
    2 :: g0.1 :: sortDescNat ((groups.drop 1).map Prod.fst)
  else
    1 :: values

/-- `HAND_NAMES` lookup. -/
def handName : Nat → String
  | 10 => "皇家同花顺"
  | 9 => "同花顺"
  | 8 => "四条"
  | 7 => "葫芦"
  | 6 => "同花"
  | 5 => "顺子"
  | 4 => "三条"
  | 3 => "两对"
  | 2 => "一对"
  | 1 => "高牌"
  | _ => ""

/-- Result of `HandEvaluator.evaluate`. -/
structure EvalResult where
  score : List Nat
  bestCards : List Card
  name : String
deriving DecidableEq, Repr

/-- The loop body of `HandEvaluator.evaluate`: keep the combination whose
`_evaluate5` score compares strictly greater than the best so far
(`compareScores(result.score, bestResult.score) > 0`), remembering the
literal combination as `bestCards`. -/
def bestFold (combos : List (List Card)) (init : List Nat × List Card) :
    List Nat × List Card :=
  combos.foldl
    (fun best combo =>
      if 0 < cmpScores (evaluate5 combo) best.1 then (evaluate5 combo, combo) else best)
    init

/-- `HandEvaluator.evaluate`: enumerate all 5-card combinations and keep
the maximal one.  The source starts from `null` and always adopts the
first combination; with fewer than 5 cards the source would throw on
`bestResult.name`, so that unreachable case returns a dummy result here. -/
def evaluate (cards : List Card) : EvalResult :=
  match combinations cards 5 with
  | [] => ⟨[], [], ""⟩
  | c :: rest =>
    let best := bestFold rest (evaluate5 c, c)
    ⟨best.1, best.2, handName (best.1.headD 0)⟩

/-- Witness for C6 at a concrete 7-card input. -/
def c6cards : List Card :=
  [⟨14, .hearts⟩, ⟨2, .clubs⟩, ⟨3, .hearts⟩, ⟨4, .hearts⟩,
   ⟨5, .hearts⟩, ⟨13, .hearts⟩, ⟨12, .hearts⟩]

/-! ### The wheel straight -/

/-- The cards A,2,3,4,5 with an arbitrary suit assignment. -/
def wheelCards (s0 s1 s2 s3 s4 : Suit) : List Card :=
  [⟨14, s0⟩, ⟨2, s1⟩, ⟨3, s2⟩, ⟨4, s3⟩, ⟨5, s4⟩]

/-- The cards 2,3,4,5,6 with an arbitrary suit assignment. -/
def sixHighCards (s0 s1 s2 s3 s4 : Suit) : List Card :=
  [⟨6, s0⟩, ⟨2, s1⟩, ⟨3, s2⟩, ⟨4, s3⟩, ⟨5, s4⟩]

/-! ## PokerGame — the betting/showdown state machine (src/server/game/Room.js)

Chip quantities (stacks, bets, pot, blinds) are modelled as ℤ — the data
model declares integer chip stacks, and every engine operation (addition,
subtraction, `Math.min`/`Math.max`, comparisons, and the single
`Math.floor` of quotients of integers at showdown) is closed over the
integers.  Player ids are modelled as ℕ (the source uses opaque strings;
only equality is ever used, and the id-list sort keys below are canonical
forms of id multisets under either model).  Callback invocations
(`onStateChange`, …) and display-only data are external effects and carry
no state, so they are omitted. -/

inductive Stage
  | WAITING
  | PRE_FLOP
  | FLOP
  | TURN
  | RIVER
  | SHOWDOWN
deriving DecidableEq, Repr, Inhabited

/-- A seat, as created by `addPlayer` (fields `_isSB`/`_isBB` are the
transient blind markers added by `startHand`). -/
structure Player where
  id : Nat
  pname : String
  chips : ℤ
  seat : Int
  hand : List Card
  bet : ℤ
  totalBet : ℤ
  folded : Bool
  allIn : Bool
  acted : Bool
  disconnected : Bool
  sittingOut : Bool
  isSB : Bool
  isBB : Bool
deriving DecidableEq, Repr, Inhabited

/-- A showdown result entry (`results` in `_showdown`): id, display name,
amount won, and the winning evaluation. -/
structure ShowdownAward where
  pid : Nat
  pnameAward : String
  amount : ℤ
  hand : String
  bestCards : List Card
  score : List Nat
deriving DecidableEq, Repr, Inhabited

/-- The `PokerGame` state. -/
structure GameState where
  smallBlind : ℤ
  bigBlind : ℤ
  stage : Stage
  deck : List Card
  communityCards : List Card
  pot : ℤ
  players : List Player
  dealerIndex : Int
  currentPlayerIndex : Int
  lastRaiserIndex : Int
  lastRaiseSize : ℤ
  handNumber : Nat
  winners : Option (List ShowdownAward)
deriving DecidableEq, Repr, Inhabited

/-- The structured result of `handleAction`. -/
structure ActionResult where
  success : Bool
  error : Option String
deriving DecidableEq, Repr, Inhabited

/-- Array access `this.players[idx]` (callers only use valid indices;
`(-1).toNat = 0` and out-of-range reads return the default, mirroring
nothing meaningful — the JS code would crash there). -/
def getPlayer (ps : List Player) (i : Int) : Player := ps.getD i.toNat default

/-- Array element assignment at an index. -/
def setPlayer (ps : List Player) (i : Int) (p : Player) : List Player := ps.set i.toNat p

/-- `getActivePlayers()`. -/
def getActivePlayers (s : GameState) : List Player :=
  s.players.filter (fun p => !p.folded && !p.sittingOut)

/-- `getActionablePlayers()`. -/
def getActionablePlayers (s : GameState) : List Player :=
  s.players.filter (fun p => !p.folded && !p.allIn && !p.sittingOut)

/-- `getPlayersInHand()`. -/
def getPlayersInHand (s : GameState) : List Player :=
  s.players.filter (fun p => !p.sittingOut)

/-- `_getCurrentMaxBet()`: `Math.max(0, ...bets)`. -/
def getCurrentMaxBet (s : GameState) : ℤ :=
  s.players.foldl (fun m p => max m p.bet) 0

/-- The scan loop shared by the `_next*PlayerIndex` helpers: starting
from the given (already wrapped) index, try up to `players.length`
indices in cyclic order, returning the first satisfying `pred`, else
`fromIdx`.  All callers wrap with a non-negative numerator, where JS `%`
and `Int.emod` agree. -/
def searchGo (pred : Player → Bool) (players : List Player) (fromIdx : Int) :
    Nat → Int → Int
  | 0, _ => fromIdx
  | fuel + 1, idx =>
    if pred (getPlayer players idx) then idx
    else searchGo pred players fromIdx fuel ((idx + 1).emod players.length)

/-- Common shape of `_nextActivePlayerIndex` / `_nextActionablePlayerIndex`
/ `_nextActivePlayerIndexForDealer`: begin at `(fromIdx + 1) % length`. -/
def searchFrom (pred : Player → Bool) (players : List Player) (fromIdx : Int) : Int :=
  searchGo pred players fromIdx players.length ((fromIdx + 1).emod players.length)

/-- `_nextActivePlayerIndexForDealer`. -/
def nextActivePlayerIndexForDealer (s : GameState) (fromIdx : Int) : Int :=
  searchFrom (fun p => !p.sittingOut) s.players fromIdx

/-- `_nextActivePlayerIndex`. -/
def nextActivePlayerIndex (s : GameState) (fromIdx : Int) : Int :=
  searchFrom (fun p => !p.folded && !p.sittingOut) s.players fromIdx

/-- `_nextActionablePlayerIndex`. -/
def nextActionablePlayerIndex (s : GameState) (fromIdx : Int) : Int :=
  searchFrom (fun p => !p.folded && !p.allIn && !p.sittingOut) s.players fromIdx

/-- `Array.prototype.findIndex` with an index-aware predicate:
first matching index, else −1. -/
def findIdxPGo (pred : Nat → Player → Bool) : List Player → Nat → Int
  | [], _ => -1
  | p :: ps, i => if pred i p then (i : Int) else findIdxPGo pred ps (i + 1)

def findIdxP (pred : Nat → Player → Bool) (ps : List Player) : Int :=
  findIdxPGo pred ps 0

/-- `findIndex` on the player alone. -/
def findIdxOr (pred : Player → Bool) (ps : List Player) : Int :=
  findIdxP (fun _ p => pred p) ps

/-- `_findBBIndex()`. -/
def findBBIndex (s : GameState) : Int := findIdxOr (fun p => p.isBB) s.players

/-- `_postBlind(player, amount)` for the player at index `i`. -/
def postBlind (s : GameState) (i : Int) (amount : ℤ) : GameState :=
  let p := getPlayer s.players i
  let actual := min amount p.chips
  let p' := { p with chips := p.chips - actual, bet := actual, totalBet := actual }
  let p'' := if p'.chips = 0 then { p' with allIn := true } else p'
  { s with players := setPlayer s.players i p'', pot := s.pot + actual }

/-- `_advanceDealer()`. -/
def advanceDealer (s : GameState) : GameState :=
  if (getPlayersInHand s).length = 0 then s
  else if s.dealerIndex = -1 then { s with dealerIndex := 0 }
  else { s with dealerIndex := nextActivePlayerIndexForDealer s s.dealerIndex }

/-- Per-hand reset of a seat at the top of `startHand`. -/
def resetPlayerForHand (p : Player) : Player :=
  { p with
    sittingOut := decide (p.chips ≤ 0) || p.disconnected
    hand := []
    bet := 0
    totalBet := 0
    folded := false
    allIn := false
    acted := false
    isSB := false
    isBB := false }

/-- Deal two hole cards to every in-hand seat, in seat order
(`for (const p of inHand) p.hand = this.deck.deal(2)`). -/
def dealHands : List Player → List Card → List Player × List Card
  | [], deck => ([], deck)
  | p :: ps, deck =>
    if p.sittingOut then
      let r := dealHands ps deck
      (p :: r.1, r.2)
    else
      let r := dealHands ps (deck.drop 2)
      ({ p with hand := deck.take 2 } :: r.1, r.2)

/-- Set the `_isSB` marker on the seat at index `i`. -/
def markSB (s : GameState) (i : Int) : GameState :=
  { s with players := setPlayer s.players i { getPlayer s.players i with isSB := true } }

/-- Set the `_isBB` marker on the seat at index `i`. -/
def markBB (s : GameState) (i : Int) : GameState :=
  { s with players := setPlayer s.players i { getPlayer s.players i with isBB := true } }

/-- `startHand()`.  `freshDeck` is the shuffled deck created by
`this.deck.reset()` (shuffling is the only nondeterminism, so the deck
is a parameter).  Returns the source's boolean and the new state. -/
def startHand (s : GameState) (freshDeck : List Card) : Bool × GameState :=
  let eligible := s.players.filter (fun p => decide (0 < p.chips) && !p.disconnected)
  if eligible.length < 2 then (false, s)
  else
    let s₁ : GameState :=
      { s with
        players := s.players.map resetPlayerForHand
        handNumber := s.handNumber + 1
        deck := freshDeck
        communityCards := []
        pot := 0
        winners := none
        lastRaiseSize := s.bigBlind }
    let s₂ := advanceDealer s₁
    let inHandCount := (getPlayersInHand s₂).length
    let s₃ :=
      if inHandCount = 2 then
        let dealerSeat := (getPlayer s₂.players s₂.dealerIndex).seat
        let sbIdx := findIdxOr (fun p => !p.sittingOut && p.seat == dealerSeat) s₂.players
        let bbIdx := findIdxP (fun i p => !p.sittingOut && ((i : Int) != sbIdx)) s₂.players
        markBB (markSB (postBlind (postBlind s₂ sbIdx s₂.smallBlind) bbIdx s₂.bigBlind) sbIdx) bbIdx
      else
        let sbIdx := nextActivePlayerIndex s₂ s₂.dealerIndex
        let bbIdx := nextActivePlayerIndex s₂ sbIdx
        markBB (markSB (postBlind (postBlind s₂ sbIdx s₂.smallBlind) bbIdx s₂.bigBlind) sbIdx) bbIdx
    let dealt := dealHands s₃.players s₃.deck
    let s₄ := { s₃ with players := dealt.1, deck := dealt.2, stage := Stage.PRE_FLOP }
    let s₅ :=
      if inHandCount = 2 then { s₄ with currentPlayerIndex := s₄.dealerIndex }
      else { s₄ with currentPlayerIndex := nextActionablePlayerIndex s₄ (findBBIndex s₄) }
    (true, { s₅ with lastRaiserIndex := findBBIndex s₅ })

/-! ### Side pots and showdown -/

def insertAscInt (x : ℤ) : List ℤ → List ℤ
  | [] => [x]
  | y :: ys => if x ≤ y then x :: y :: ys else y :: insertAscInt x ys

/-- Ascending numeric sort (`sort((a, b) => a - b)`). -/
def sortAscInt (l : List ℤ) : List ℤ := l.foldr insertAscInt []

def insertAscNat (x : Nat) : List Nat → List Nat
  | [] => [x]
  | y :: ys => if x ≤ y then x :: y :: ys else y :: insertAscNat x ys

def sortAscNat (l : List Nat) : List Nat := l.foldr insertAscNat []

/-- A side pot: the amount and the indices (into `players`) of the
eligible seats — the source keeps object references. -/
structure SidePot where
  amount : ℤ
  eligible : List Nat
deriving DecidableEq, Repr, Inhabited

/-- The level loop of `_calculateSidePots`: for each level the slice
amount is `Σ min(diff, totalBet - previousLevel)` over contributors;
eligibility is the non-folded seats at that level, falling back to all
seats at that level. -/
def buildPots (pih : List (Nat × Player)) : List ℤ → ℤ → List SidePot
  | [], _ => []
  | level :: rest, prev =>
    let diff := level - prev
    if diff ≤ 0 then buildPots pih rest prev
    else
      let eligible := pih.filter (fun ip => decide (level ≤ ip.2.totalBet))
      let contributors := pih.filter (fun ip => decide (prev < ip.2.totalBet))
      let amount := (contributors.map (fun ip => min diff (ip.2.totalBet - prev))).sum
      let here :=
        if 0 < amount then
          let eligibleActive := eligible.filter (fun ip => !ip.2.folded)
          [SidePot.mk amount
            ((if 0 < eligibleActive.length then eligibleActive else eligible).map Prod.fst)]
        else []
      here ++ buildPots pih rest level

/-- The merge key of a pot: its eligible seats' ids, sorted
(`pot.eligible.map(p => p.id).sort().join(',')` — a canonical form of
the id multiset, as ids contain no comma). -/
def potKey (ps : List Player) (pot : SidePot) : List Nat :=
  sortAscNat (pot.eligible.map (fun i => (ps.getD i default).id))

/-- One step of the merge loop of `_calculateSidePots`. -/
def addMergePot (ps : List Player) (acc : List SidePot) (pot : SidePot) : List SidePot :=
  match acc.findIdx? (fun mp => potKey ps mp == potKey ps pot) with
  | some i =>
    let ex := acc.getD i default
    acc.set i { ex with amount := ex.amount + pot.amount }
  | none => acc ++ [pot]

def mergePots (ps : List Player) (pots : List SidePot) : List SidePot :=
  pots.foldl (addMergePot ps) []

/-- Indices of the active (non-folded, in-hand) seats. -/
def activeIdx (s : GameState) : List Nat :=
  (s.players.enum.filter (fun ip => !ip.2.folded && !ip.2.sittingOut)).map Prod.fst

/-- `_calculateSidePots()`. -/
def calculateSidePots (s : GameState) : List SidePot :=
  let pih := s.players.enum.filter
    (fun ip => !ip.2.sittingOut && decide (0 < ip.2.totalBet))
  if pih.length = 0 then [⟨s.pot, activeIdx s⟩]
  else
    let betLevels := sortAscInt (pih.map (fun ip => ip.2.totalBet)).dedup
    let merged := mergePots s.players (buildPots pih betLevels 0)
    if 0 < merged.length then merged else [⟨s.pot, activeIdx s⟩]

/-- Stable insertion step for sorting evaluations by
`(a, b) => compareScores(b.eval.score, a.eval.score)` (score
descending).  `x` is placed before `y` exactly when the comparator does
not order `y` strictly before `x`, which reproduces the output of the
stable `Array.prototype.sort`. -/
def insertEval (x : Nat × EvalResult) : List (Nat × EvalResult) → List (Nat × EvalResult)
  | [] => [x]
  | y :: ys => if cmpScores y.2.score x.2.score ≤ 0 then x :: y :: ys else y :: insertEval x ys

def sortEvals (l : List (Nat × EvalResult)) : List (Nat × EvalResult) :=
  l.foldr insertEval []

/-- Append or merge one member of `results` (`_showdown` keeps one entry
per player id and adds amounts). -/
def addResult (results : List ShowdownAward) (p : Player) (amt : ℤ) (ev : EvalResult) :
    List ShowdownAward :=
  match results.findIdx? (fun r => r.pid == p.id) with
  | some i =>
    let ex := results.getD i default
    results.set i { ex with amount := ex.amount + amt }
  | none => results ++ [⟨p.id, p.pname, amt, ev.name, ev.bestCards, ev.score⟩]

/-- The `winners.forEach` loop of `_showdown`: the first tied winner
receives the remainder, everyone the share. -/
def awardLoop (players : List Player) (results : List ShowdownAward) :
    List (Nat × EvalResult) → ℤ → ℤ → List Player × List ShowdownAward
  | [], _, _ => (players, results)
  | w :: rest, share, remainder =>
    let p := players.getD w.1 default
    let players' := players.set w.1 { p with chips := p.chips + share + remainder }
    let results' := addResult results p (share + remainder) w.2
    awardLoop players' results' rest share 0

/-- Settle a single pot at showdown: evaluate the eligible non-folded
hands, sort descending (stable), find the tied winners, split with the
floored share (`Math.floor(pot.amount / winners.length)`, which on
integer amounts is floor division) and give the remainder to the first
winner.  An empty
evaluation list would crash the source (`evaluations[0]`); it is
returned unchanged here and is unreachable at a real showdown. -/
def potAward (community : List Card) (acc : List Player × List ShowdownAward)
    (pot : SidePot) : List Player × List ShowdownAward :=
  let players := acc.1
  let evaluations := (pot.eligible.filter (fun i => !(players.getD i default).folded)).map
    (fun i => (i, evaluate ((players.getD i default).hand ++ community)))
  let sorted := sortEvals evaluations
  match sorted with
  | [] => acc
  | best :: _ =>
    let winners := sorted.filter (fun e => cmpScores e.2.score best.2.score == 0)
    let share : ℤ := Int.fdiv pot.amount (winners.length : ℤ)
    let remainder := pot.amount - share * (winners.length : ℤ)
    awardLoop players acc.2 winners share remainder

/-- `_showdown()`.  The callback payloads (`showdownData`) are external
effects; the `results` list is kept in `winners`. -/
def showdown (s : GameState) : GameState :=
  let s₀ := { s with stage := Stage.SHOWDOWN }
  let pots := calculateSidePots s₀
  let settled := pots.foldl (potAward s₀.communityCards) (s₀.players, [])
  { s₀ with players := settled.1, winners := some settled.2 }

/-- `_awardPotToLastPlayer(winner)` for the seat at `winnerIdx`. -/
def awardPotToLastPlayer (s : GameState) (winnerIdx : Int) : GameState :=
  let w := getPlayer s.players winnerIdx
  { s with
    players := setPlayer s.players winnerIdx { w with chips := w.chips + s.pot }
    stage := Stage.SHOWDOWN
    winners := some [⟨w.id, w.pname, s.pot, "", [], []⟩] }

/-- Fuel bound for the `_advanceStage` self-recursion: the stage strictly
advances PRE_FLOP→FLOP→TURN→RIVER, so 4 levels always suffice. -/
def stageFuel : Nat := 4

/-- `_advanceStage()`. -/
def advanceStage (s : GameState) : Nat → GameState
  | 0 => s
  | fuel + 1 =>
    let s₁ : GameState :=
      { s with
        players := s.players.map (fun p => { p with bet := 0, acted := false })
        lastRaiseSize := s.bigBlind }
    if (getActivePlayers s₁).length = 1 then
      awardPotToLastPlayer s₁ (findIdxOr (fun p => !p.folded && !p.sittingOut) s₁.players)
    else
      let allInOrFolded := (getActionablePlayers s₁).length ≤ 1
      let s₂ : GameState :=
        match s₁.stage with
        | Stage.PRE_FLOP =>
          { s₁ with
            stage := Stage.FLOP
            communityCards := s₁.communityCards ++ (s₁.deck.drop 1).take 3
            deck := s₁.deck.drop 4 }
        | Stage.FLOP =>
          { s₁ with
            stage := Stage.TURN
            communityCards := s₁.communityCards ++ (s₁.deck.drop 1).take 1
            deck := s₁.deck.drop 2 }
        | Stage.TURN =>
          { s₁ with
            stage := Stage.RIVER
            communityCards := s₁.communityCards ++ (s₁.deck.drop 1).take 1
            deck := s₁.deck.drop 2 }
        | _ => s₁
      if s₁.stage = Stage.RIVER then showdown s₁
      else if allInOrFolded then advanceStage s₂ fuel
      else
        { s₂ with
          currentPlayerIndex := nextActionablePlayerIndex s₂ s₂.dealerIndex
          lastRaiserIndex := -1 }

/-- The `while` loop of `_advanceAction`: find the next seat that has not
acted, trying at most `players.length` indices. -/
def advanceActionLoop (s : GameState) : Nat → Int → Option Int
  | 0, _ => none
  | fuel + 1, idx =>
    let p := getPlayer s.players idx
    if !p.folded && !p.allIn && !p.sittingOut && !p.acted then some idx
    else advanceActionLoop s fuel (nextActionablePlayerIndex s idx)

/-- `_advanceAction()`. -/
def advanceAction (s : GameState) : GameState :=
  let actionable := getActionablePlayers s
  if actionable.length = 0 then advanceStage s stageFuel
  else if actionable.length = 1 && (actionable.headD default).acted then
    advanceStage s stageFuel
  else
    match advanceActionLoop s s.players.length
        (nextActionablePlayerIndex s s.currentPlayerIndex) with
    | some idx => { s with currentPlayerIndex := idx }
    | none => advanceStage s stageFuel

/-- Clear `acted` on every seat other than `keep` that is non-folded,
non-all-in and in the hand (the reopen loop of `_handleRaise` and
`_handleAllIn`; the source compares object identity `p !== player`). -/
def clearActedExcept (ps : List Player) (keep : Int) : List Player :=
  ps.enum.map (fun ip =>
    if ((ip.1 : Int) != keep) && !ip.2.folded && !ip.2.allIn && !ip.2.sittingOut then
      { ip.2 with acted := false }
    else ip.2)

/-- `_handleFold`. -/
def handleFold (s : GameState) (playerIdx : Int) : ActionResult × GameState :=
  let p := getPlayer s.players playerIdx
  let s₁ := { s with players := setPlayer s.players playerIdx { p with folded := true, acted := true } }
  if (getActivePlayers s₁).length = 1 then
    (⟨true, none⟩, awardPotToLastPlayer s₁ (findIdxOr (fun q => !q.folded && !q.sittingOut) s₁.players))
  else
    (⟨true, none⟩, advanceAction s₁)

/-- `_handleCheck`. -/
def handleCheck (s : GameState) (playerIdx : Int) (maxBet : ℤ) : ActionResult × GameState :=
  let p := getPlayer s.players playerIdx
  if p.bet < maxBet then (⟨false, some "不能过牌，需要跟注或加注"⟩, s)
  else
    let s₁ := { s with players := setPlayer s.players playerIdx { p with acted := true } }
    (⟨true, none⟩, advanceAction s₁)

/-- `_handleCall`. -/
def handleCall (s : GameState) (playerIdx : Int) (maxBet : ℤ) : ActionResult × GameState :=
  let p := getPlayer s.players playerIdx
  let callAmount := min (maxBet - p.bet) p.chips
  if callAmount ≤ 0 then (⟨false, some "无需跟注"⟩, s)
  else
    let p' := { p with
      chips := p.chips - callAmount
      bet := p.bet + callAmount
      totalBet := p.totalBet + callAmount
      acted := true }
    let p'' := if p'.chips = 0 then { p' with allIn := true } else p'
    let s₁ := { s with players := setPlayer s.players playerIdx p'', pot := s.pot + callAmount }
    (⟨true, none⟩, advanceAction s₁)

/-- `_handleRaise` (`raiseTo` is the seat's new total street bet). -/
def handleRaise (s : GameState) (playerIdx : Int) (raiseTo : ℤ) (maxBet : ℤ) :
    ActionResult × GameState :=
  let p := getPlayer s.players playerIdx
  if raiseTo ≤ maxBet then (⟨false, some "加注金额必须大于当前最大注"⟩, s)
  else
    let minRaise := maxBet + s.lastRaiseSize
    let totalNeeded := raiseTo - p.bet
    if p.chips < totalNeeded then (⟨false, some "筹码不足"⟩, s)
    else if raiseTo < minRaise ∧ totalNeeded < p.chips then
      (⟨false, some ("最低加注到 " ++ toString minRaise)⟩, s)
    else
      let actualRaise := raiseTo - maxBet
      let p' := { p with
        chips := p.chips - totalNeeded
        bet := p.bet + totalNeeded
        totalBet := p.totalBet + totalNeeded
        acted := true }
      let p'' := if p'.chips = 0 then { p' with allIn := true } else p'
      let s₁ := { s with
        lastRaiseSize := max s.lastRaiseSize actualRaise
        players := setPlayer s.players playerIdx p''
        pot := s.pot + totalNeeded }
      let s₂ := { s₁ with
        players := clearActedExcept s₁.players playerIdx
        lastRaiserIndex := playerIdx }
      (⟨true, none⟩, advanceAction s₂)

/-- The state mutation of `_handleAllIn` up to and including the bet
update (everything before the end-of-hand check and `_advanceAction`). -/
def allInBet (s : GameState) (playerIdx : Int) (maxBet : ℤ) : GameState :=
  let p := getPlayer s.players playerIdx
  let allInAmount := p.chips
  let newBet := p.bet + allInAmount
  let p₁ := { p with
    chips := 0
    totalBet := p.totalBet + allInAmount
    acted := true
    allIn := true }
  let s₁ := { s with players := setPlayer s.players playerIdx p₁, pot := s.pot + allInAmount }
  let s₂ :=
    if maxBet < newBet then
      let raiseAmount := newBet - maxBet
      if s.lastRaiseSize ≤ raiseAmount then
        { s₁ with
          lastRaiseSize := raiseAmount
          lastRaiserIndex := playerIdx
          players := clearActedExcept s₁.players playerIdx }
      else s₁
    else s₁
  let p₂ := getPlayer s₂.players playerIdx
  { s₂ with players := setPlayer s₂.players playerIdx { p₂ with bet := newBet } }

/-- `_handleAllIn`. -/
def handleAllIn (s : GameState) (playerIdx : Int) (maxBet : ℤ) : ActionResult × GameState :=
  let s₃ := allInBet s playerIdx maxBet
  if (getActivePlayers s₃).length = 1 then
    (⟨true, none⟩, awardPotToLastPlayer s₃ (findIdxOr (fun q => !q.folded && !q.sittingOut) s₃.players))
  else
    (⟨true, none⟩, advanceAction s₃)

/-- `handleAction(playerId, action, amount)`. -/
def handleAction (s : GameState) (playerId : Nat) (action : String) (amount : ℤ) :
    ActionResult × GameState :=
  let playerIdx := findIdxOr (fun p => p.id == playerId) s.players
  if playerIdx = -1 then (⟨false, some "玩家不存在"⟩, s)
  else
    let player := getPlayer s.players playerIdx
    if s.stage = Stage.WAITING ∨ s.stage = Stage.SHOWDOWN then
      (⟨false, some "当前不在下注阶段"⟩, s)
    else if playerIdx ≠ s.currentPlayerIndex then (⟨false, some "不是你的回合"⟩, s)
    else if player.folded || player.allIn || player.sittingOut then
      (⟨false, some "无法操作"⟩, s)
    else
      let maxBet := getCurrentMaxBet s
      if action = "fold" then handleFold s playerIdx
      else if action = "check" then handleCheck s playerIdx maxBet
      else if action = "call" then handleCall s playerIdx maxBet
      else if action = "raise" then handleRaise s playerIdx amount maxBet
      else if action = "allin" then handleAllIn s playerIdx maxBet
      else (⟨false, some "无效操作"⟩, s)

/-! ### Snapshots (`getGameState`) -/

/-- One entry of the legal-action enumeration of `_getAvailableActions`. -/
inductive AvailAction
  | fold
  | check
  | call (amount : ℚ)
  | raiseRange (lo hi : ℚ)
  | allin (amount : ℚ)
deriving DecidableEq, Repr

/-- `_getAvailableActions(player)`.  The entries carry their amounts as
the rational image of the engine's integer amounts, matching the numeric
type used on the decision-engine side of the interface. -/
def getAvailableActions (s : GameState) (player : Player) : List AvailAction :=
  let maxBet := getCurrentMaxBet s
  let l₁ : List AvailAction :=
    if maxBet ≤ player.bet then [AvailAction.fold, AvailAction.check]
    else [AvailAction.fold, AvailAction.call ((min (maxBet - player.bet) player.chips : ℤ) : ℚ)]
  let minRaise := maxBet + s.lastRaiseSize
  let maxRaise := player.bet + player.chips
  let l₂ :=
    if maxBet < maxRaise then
      l₁ ++ [AvailAction.raiseRange ((min minRaise maxRaise : ℤ) : ℚ) ((maxRaise : ℤ) : ℚ)]
    else l₁
  if 0 < player.chips then l₂ ++ [AvailAction.allin ((player.chips : ℤ) : ℚ)] else l₂

/-- One player entry of the snapshot. -/
structure PlayerInfo where
  id : Nat
  pname : String
  chips : ℤ
  bet : ℤ
  totalBet : ℤ
  folded : Bool
  allIn : Bool
  sittingOut : Bool
  disconnected : Bool
  seat : Int
  isDealer : Bool
  isSBInfo : Bool
  isBBInfo : Bool
  isCurrent : Bool
  hand : Option (List Card)
deriving DecidableEq, Repr, Inhabited

/-- The snapshot returned by `getGameState(forPlayerId)`. -/
structure Snapshot where
  stage : Stage
  pot : ℤ
  communityCards : List Card
  dealerIndex : Int
  currentPlayerIndex : Int
  handNumber : Nat
  smallBlind : ℤ
  bigBlind : ℤ
  winners : Option (List ShowdownAward)
  players : List PlayerInfo
  availableActions : Option (List AvailAction)
deriving DecidableEq, Repr

/-- `getGameState(forPlayerId)`:  hole cards start `null`, are revealed
to the seat's own player, and are revealed to everyone for non-folded
seats during SHOWDOWN. -/
def getGameState (s : GameState) (forPlayerId : Option Nat) : Snapshot :=
  let infos := s.players.enum.map (fun ip =>
    let p := ip.2
    let ownHand : Option (List Card) :=
      if (match forPlayerId with
          | some r => p.id == r
          | none => false) && decide (0 < p.hand.length) then
        some p.hand
      else none
    let shownHand : Option (List Card) :=
      if s.stage == Stage.SHOWDOWN && !p.folded && decide (0 < p.hand.length) then
        some p.hand
      else ownHand
    { id := p.id
      pname := p.pname
      chips := p.chips
      bet := p.bet
      totalBet := p.totalBet
      folded := p.folded
      allIn := p.allIn
      sittingOut := p.sittingOut
      disconnected := p.disconnected
      seat := p.seat
      isDealer := (ip.1 : Int) == s.dealerIndex
      isSBInfo := p.isSB
      isBBInfo := p.isBB
      isCurrent := ((ip.1 : Int) == s.currentPlayerIndex) &&
        !(s.stage == Stage.WAITING) && !(s.stage == Stage.SHOWDOWN)
      hand := shownHand : PlayerInfo })
  let avail : Option (List AvailAction) :=
    match forPlayerId with
    | none => none
    | some r =>
      let playerIdx := findIdxOr (fun p => p.id == r) s.players
      if playerIdx = s.currentPlayerIndex ∧ s.stage ≠ Stage.WAITING ∧
          s.stage ≠ Stage.SHOWDOWN then
        some (getAvailableActions s (getPlayer s.players playerIdx))
      else none
  { stage := s.stage
    pot := s.pot
    communityCards := s.communityCards
    dealerIndex := s.dealerIndex
    currentPlayerIndex := s.currentPlayerIndex
    handNumber := s.handNumber
    smallBlind := s.smallBlind
    bigBlind := s.bigBlind
    winners := s.winners
    players := infos
    availableActions := avail }

/-! ## AIDecisionEngine (src/server/ai/AIDecisionEngine.js)

The LLM advisory call (`decideWithLLM`) performs network I/O; its outcome
is modelled as an `Option LLMParsed` parameter: `none` for HTTP error,
timeout, empty or unparsable response, `some` for a parsed
`{ amount, reasoning }` object.  The `Math.random()` draws are likewise
parameters. -/

/-- `actionWeights` of a personality configuration. -/
structure ActionWeights where
  raiseBoost : ℚ
  callBoost : ℚ
  foldBoost : ℚ
  bluffBoost : ℚ
  slowplayBoost : ℚ
deriving DecidableEq, Repr

structure SizingTier where
  fraction : ℚ
  weight : ℚ
deriving DecidableEq, Repr

structure PersonalityConfig where
  actionWeights : ActionWeights
  sizingTiers : List SizingTier
  jitterRange : ℚ
deriving DecidableEq, Repr

/-- `PERSONALITY_CONFIG.balanced`. -/
def balancedConfig : PersonalityConfig :=
  ⟨⟨1, 1, 1, 1, 1⟩,
    [⟨33/100, 1/10⟩, ⟨1/2, 7/20⟩, ⟨67/100, 7/20⟩, ⟨4/5, 3/20⟩, ⟨1, 1/20⟩],
    2/25⟩

/-- `PERSONALITY_CONFIG.aggressive`. -/
def aggressiveConfig : PersonalityConfig :=
  ⟨⟨8/5, 9/10, 7/10, 13/10, 3/5⟩,
    [⟨1/2, 1/10⟩, ⟨67/100, 3/10⟩, ⟨4/5, 3/10⟩, ⟨1, 1/4⟩, ⟨3/2, 1/20⟩],
    1/10⟩

/-- `PERSONALITY_CONFIG.bluffer`. -/
def blufferConfig : PersonalityConfig :=
  ⟨⟨11/10, 1, 9/10, 11/5, 3/2⟩,
    [⟨1/4, 3/20⟩, ⟨33/100, 7/20⟩, ⟨1/2, 7/20⟩, ⟨67/100, 1/10⟩, ⟨1, 1/20⟩],
    1/10⟩

/-- An action-probability quadruple. -/
structure ActionMix where
  fold : ℚ
  check : ℚ
  call : ℚ
  raise : ℚ
deriving DecidableEq, Repr

/-- `_qualityToLabel` with the `QUALITY_TIERS` thresholds 0.8/0.7/0.5/0.3. -/
def qualityToLabel (quality : ℚ) : String :=
  if 4/5 ≤ quality then "very_strong"
  else if 7/10 ≤ quality then "strong"
  else if 1/2 ≤ quality then "medium"
  else if 3/10 ≤ quality then "marginal"
  else "weak"

/-- `BASE_ACTION_PROBS`. -/
def baseActionProbs (label : String) : ActionMix :=
  if label = "very_strong" then ⟨0, 1/10, 3/20, 3/4⟩
  else if label = "strong" then ⟨1/50, 13/100, 7/20, 1/2⟩
  else if label = "medium" then ⟨3/25, 1/4, 19/50, 1/4⟩
  else if label = "marginal" then ⟨7/20, 1/4, 1/4, 3/20⟩
  else ⟨3/5, 1/4, 2/25, 7/100⟩

/-- The decision snapshot produced by `normalizeInput` (the fields the
decision pipeline reads). -/
structure AIInput where
  street : String
  potSize : ℚ
  currentBet : ℚ
  playerBet : ℚ
  playerChips : ℚ
  minRaise : ℚ
  callAmount : ℚ
  position : String
  bigBlind : ℚ
  smallBlind : ℚ
  preflopStrength : ℚ
  handStrength : Option EvalResult
  availableActions : List AvailAction
deriving DecidableEq, Repr

/-- `_handRankToQuality` (`rankMap[rank] || 0.2`). -/
def handRankToQuality (ev : EvalResult) : ℚ :=
  match ev.score.headD 0 with
  | 1 => 3/20
  | 2 => 7/20
  | 3 => 11/20
  | 4 => 13/20
  | 5 => 3/4
  | 6 => 39/50
  | 7 => 17/20
  | 8 => 23/25
  | 9 => 49/50
  | _ => 1/5

/-- `_computeQuality`. -/
def computeQuality (input : AIInput) : ℚ :=
  if input.street = "preflop" then input.preflopStrength
  else
    match input.handStrength with
    | some ev => handRankToQuality ev
    | none => 3/10

/-- Is a legal check available (`availableActions.includes('check') ||
currentBet <= playerBet`)? -/
def canCheckInput (input : AIInput) : Bool :=
  input.availableActions.contains AvailAction.check || decide (input.currentBet ≤ input.playerBet)

/-- Is a raise entry present? -/
def canRaiseInput (input : AIInput) : Bool :=
  input.availableActions.any (fun a =>
    match a with
    | AvailAction.raiseRange _ _ => true
    | _ => false)

/-- `callAmount > 0 && currentBet > playerBet`. -/
def needsCallInput (input : AIInput) : Bool :=
  decide (0 < input.callAmount) && decide (input.playerBet < input.currentBet)

/-- Is a `call` entry present in the legal-action list? -/
def hasCallEntry (l : List AvailAction) : Bool :=
  l.any (fun a =>
    match a with
    | AvailAction.call _ => true
    | _ => false)

/-- Step 1 of `computeActionMix`: personality boosts. -/
def mixStepPersonality (w : ActionWeights) (m : ActionMix) : ActionMix :=
  { m with
    raise := m.raise * w.raiseBoost
    call := m.call * w.callBoost
    fold := m.fold * w.foldBoost }

/-- Step 2: bluff boost for weak/marginal hands. -/
def mixStepBluff (label : String) (w : ActionWeights) (m : ActionMix) : ActionMix :=
  if label = "weak" ∨ label = "marginal" then { m with raise := m.raise * w.bluffBoost } else m

/-- Step 3: slowplay boost for strong hands. -/
def mixStepSlowplay (label : String) (w : ActionWeights) (m : ActionMix) : ActionMix :=
  if label = "very_strong" ∨ label = "strong" then
    { m with check := m.check * w.slowplayBoost, call := m.call * w.slowplayBoost }
  else m

/-- Step 4: late-position raise boost. -/
def mixStepPosition (input : AIInput) (m : ActionMix) : ActionMix :=
  if input.position = "dealer" ∨ input.position = "late" then
    { m with raise := m.raise * (23/20), fold := m.fold * (17/20) }
  else m

/-- Step 5: pot-odds fold/call adjustment. -/
def mixStepPotOdds (input : AIInput) (m : ActionMix) : ActionMix :=
  if 0 < input.callAmount ∧ 0 < input.potSize then
    let potOdds := input.callAmount / (input.potSize + input.callAmount)
    if 7/20 < potOdds then { m with fold := m.fold * (13/10), call := m.call * (7/10) }
    else if potOdds < 3/20 then { m with fold := m.fold * (3/5), call := m.call * (7/5) }
    else m
  else m

/-- Step 6: short-stack (below 5 big blinds) push/fold polarisation. -/
def mixStepShortStack (input : AIInput) (m : ActionMix) : ActionMix :=
  if input.playerChips < input.bigBlind * 5 then
    { fold := m.fold + m.call * (3/10) + m.check * (1/2)
      check := 0
      call := 0
      raise := m.raise + m.call * (7/10) + m.check * (1/2) }
  else m

/-- Step 7: legality adjustments. -/
def mixStepLegality (input : AIInput) (m : ActionMix) : ActionMix :=
  let cc := canCheckInput input
  let nc := needsCallInput input
  let m₇ :=
    if !cc && !nc then { m with fold := m.fold + m.check, check := 0 }
    else if !cc && nc then { m with call := m.call + m.check, check := 0 }
    else if cc && !nc then { m with check := m.check + m.fold, fold := 0 }
    else m
  if !canRaiseInput input then { m₇ with call := m₇.call + m₇.raise, raise := 0 } else m₇

/-- Step 8: normalisation (`if (total > 0) … else` fallback). -/
def mixNormalize (input : AIInput) (m : ActionMix) : ActionMix :=
  let total := m.fold + m.check + m.call + m.raise
  if 0 < total then ⟨m.fold / total, m.check / total, m.call / total, m.raise / total⟩
  else
    { m with
      fold := if canCheckInput input then 0 else 1
      check := if canCheckInput input then 1 else 0 }

/-- `computeActionMix(input, quality, pConfig)`. -/
def computeActionMix (input : AIInput) (quality : ℚ) (pConfig : PersonalityConfig) :
    ActionMix :=
  let label := qualityToLabel quality
  let w := pConfig.actionWeights
  mixNormalize input
    (mixStepLegality input
      (mixStepShortStack input
        (mixStepPotOdds input
          (mixStepPosition input
            (mixStepSlowplay label w
              (mixStepBluff label w
                (mixStepPersonality w (baseActionProbs label))))))))

/-- `sampleAction(mix)` with the `Math.random()` draw as a parameter:
cumulative-probability walk over fold, check, call, raise; `'fold'` on
fall-through. -/
def sampleAction (mix : ActionMix) (rand : ℚ) : String :=
  if rand < mix.fold then "fold"
  else if rand < mix.fold + mix.check then "check"
  else if rand < mix.fold + mix.check + mix.call then "call"
  else if rand < mix.fold + mix.check + mix.call + mix.raise then "raise"
  else "fold"

/-- `Math.round`: round half toward positive infinity. -/
def jsRound (q : ℚ) : ℤ := ⌊q + 1/2⌋

/-- First `raise` entry of the legal-action list with its `[min,max]`
band (`availableActions.find(a => a.action === 'raise')`). -/
def findRaiseRange : List AvailAction → Option (ℚ × ℚ)
  | [] => none
  | AvailAction.raiseRange lo hi :: _ => some (lo, hi)
  | _ :: rest => findRaiseRange rest

/-- The tier-selection loop of `computeRaiseSizing`. -/
def pickTierGo (dflt : ℚ) : List SizingTier → ℚ → ℚ
  | [], _ => dflt
  | t :: ts, rand => if rand - t.weight ≤ 0 then t.fraction else pickTierGo dflt ts (rand - t.weight)

/-- Steps 1–4 of `computeRaiseSizing`: tier sampling, the base amount,
jitter, and rounding to the nearest big blind — the raise-to amount
before it is clamped into the legal band. -/
def rawSizingAmount (input : AIInput) (pConfig : PersonalityConfig)
    (rTier rJitter : ℚ) : ℚ :=
  let tiers := pConfig.sizingTiers
  let totalWeight := (tiers.map SizingTier.weight).sum
  let rand := rTier * totalWeight
  let selectedFraction := pickTierGo ((tiers.headD ⟨0, 0⟩).fraction) tiers rand
  let amount₀ := input.currentBet + selectedFraction * input.potSize
  let jitter := 1 + (rJitter * 2 - 1) * pConfig.jitterRange
  let amount₁ := amount₀ * jitter
  ((jsRound (amount₁ / input.bigBlind) : ℤ) : ℚ) * input.bigBlind

/-- `computeRaiseSizing(input, pConfig, quality)` with the two
`Math.random()` draws (tier selection and jitter) as parameters.
`quality` is accepted and unused, exactly as in the source. -/
def computeRaiseSizing (input : AIInput) (pConfig : PersonalityConfig) (_quality : ℚ)
    (rTier rJitter : ℚ) : Option ℚ :=
  match findRaiseRange input.availableActions with
  | none => none
  | some (lo, hi) =>
    some (max lo (min hi (rawSizingAmount input pConfig rTier rJitter)))

/-- A parsed LLM response (`_parseLLMResponse`): optional numeric amount
and optional reasoning string. -/
structure LLMParsed where
  amount : Option ℚ
  reasoning : Option String
deriving DecidableEq, Repr

/-- The decision object `{ action, amount, meta }` (meta flattened). -/
structure Decision where
  action : String
  amount : Option ℚ
  source : String
  reasoning : Option String
deriving DecidableEq, Repr

/-- `validateAction(decision, input)`. -/
def validateAction (d : Decision) (input : AIInput) : Bool :=
  if !(["fold", "check", "call", "raise", "allin"].contains d.action) then false
  else if d.action = "fold" then true
  else if d.action = "check" then canCheckInput input
  else if d.action = "call" then
    (input.availableActions.any (fun a =>
      match a with
      | AvailAction.call _ => true
      | _ => false)) ||
      (decide (input.playerBet < input.currentBet) && decide (0 < input.playerChips))
  else if d.action = "raise" then
    match findRaiseRange input.availableActions, d.amount with
    | some (lo, hi), some amt => decide (lo ≤ amt) && decide (amt ≤ hi)
    | _, _ => false
  else decide (0 < input.playerChips)

/-- `_safeFallback(input)`: prefer check, else call, else fold. -/
def safeFallback (input : AIInput) : Decision :=
  if canCheckInput input then ⟨"check", none, "safeFallback", none⟩
  else if 0 < input.callAmount then ⟨"call", none, "safeFallback", none⟩
  else ⟨"fold", none, "safeFallback", none⟩

/-- The decision object built from the sampled action (`decide`,
lines 170–180). -/
def buildDecision (sampledAction : String) (targetSizing : Option ℚ) : Decision :=
  if sampledAction = "raise" ∧ targetSizing.isSome then ⟨"raise", targetSizing, "sampled", none⟩
  else if sampledAction = "fold" then ⟨"fold", none, "sampled", none⟩
  else if sampledAction = "check" then ⟨"check", none, "sampled", none⟩
  else ⟨"call", none, "sampled", none⟩

/-- Application of the LLM outcome to the decision (`decide`,
lines 194–204): annotate, and tune the raise amount only when the
rounded value lies inside the sizing range. -/
def applyLLM (d : Decision) (sampledAction : String) (sizingRange : Option (ℚ × ℚ))
    (llm : Option LLMParsed) : Decision :=
  match llm with
  | none => d
  | some l =>
    let d' := { d with source := "sampled+llm", reasoning := l.reasoning }
    match l.amount, sizingRange with
    | some a, some (lo, hi) =>
      if sampledAction = "raise" then
        let tuned : ℤ := jsRound a
        if lo ≤ (tuned : ℚ) ∧ (tuned : ℚ) ≤ hi then { d' with amount := some ((tuned : ℤ) : ℚ) }
        else d'
      else d'
    | _, _ => d'

/-- `decide(game, playerId, personality)` after `normalizeInput`: the
snapshot, the personality configuration, the three random draws and the
LLM outcome determine the final decision. -/
def decideCore (input : AIInput) (pConfig : PersonalityConfig)
    (rSample rTier rJitter : ℚ) (llm : Option LLMParsed) : Decision :=
  let quality := computeQuality input
  let actionMix := computeActionMix input quality pConfig
  let sampledAction := sampleAction actionMix rSample
  let raiseInfo := findRaiseRange input.availableActions
  let pair : Option ℚ × Option (ℚ × ℚ) :=
    if sampledAction = "raise" ∧ raiseInfo.isSome then
      (computeRaiseSizing input pConfig quality rTier rJitter, raiseInfo)
    else (none, none)
  let d₀ := buildDecision sampledAction pair.1
  let d₁ := applyLLM d₀ sampledAction pair.2 llm
  if validateAction d₁ input then d₁ else safeFallback input

/-! ## Invariants and reachability -/

/-- The sum of all seats' cumulative contributions for the hand. -/
def sumTotalBet (ps : List Player) : ℤ := (ps.map Player.totalBet).sum

/-- The pot/contribution invariant of C1. -/
def PotInv (s : GameState) : Prop := s.pot = sumTotalBet s.players

/-- States of a hand in progress: reached by a successful `startHand`
from an arbitrary engine state, followed by any sequence of successful
`handleAction` calls. -/
inductive ReachableInHand : GameState → Prop
  | start (s : GameState) (freshDeck : List Card) :
      (startHand s freshDeck).1 = true → ReachableInHand (startHand s freshDeck).2
  | step (s : GameState) (pid : Nat) (act : String) (amt : ℤ) :
      ReachableInHand s → (handleAction s pid act amt).1.success = true →
      ReachableInHand (handleAction s pid act amt).2

/-! ## Concrete states used by witnesses and counterexamples -/

/-- A generic seat for the example states. -/
def mkSeat (pid : Nat) (seat : Int) (chips bet totalBet : ℤ) (folded allIn acted : Bool)
    (hand : List Card) : Player :=
  { id := pid, pname := "p", chips := chips, seat := seat, hand := hand, bet := bet,
    totalBet := totalBet, folded := folded, allIn := allIn, acted := acted,
    disconnected := false, sittingOut := false, isSB := false, isBB := false }

/-- C3 counterexample state: seat 0 to act on the flop with 30 chips,
facing a 20-chip bet from seat 1 (who has already acted); the last raise
increment is 20. -/
def c3state : GameState :=
  { smallBlind := 10, bigBlind := 20, stage := Stage.FLOP, deck := [],
    communityCards := [], pot := 20,
    players := [mkSeat 0 0 30 0 0 false false false [⟨2, .hearts⟩, ⟨3, .clubs⟩],
                mkSeat 1 1 100 20 20 false false true [⟨4, .hearts⟩, ⟨5, .clubs⟩]],
    dealerIndex := 0, currentPlayerIndex := 0, lastRaiserIndex := 1,
    lastRaiseSize := 20, handNumber := 1, winners := none }

/-- C5 failing input: a river state with a royal flush on the board,
seats 0 and 2 tied with 50-chip contributions, the folded seat 1 having
contributed 1 chip (odd pot of 101), and the dealer button on seat 1. -/
def c5state : GameState :=
  { smallBlind := 10, bigBlind := 20, stage := Stage.RIVER, deck := [],
    communityCards := [⟨10, .hearts⟩, ⟨11, .hearts⟩, ⟨12, .hearts⟩, ⟨13, .hearts⟩, ⟨14, .hearts⟩],
    pot := 101,
    players := [mkSeat 0 0 0 0 50 false true true [⟨2, .spades⟩, ⟨3, .spades⟩],
                mkSeat 1 1 0 0 1 true false true [⟨7, .clubs⟩, ⟨8, .clubs⟩],
                mkSeat 2 2 0 0 50 false true true [⟨2, .diamonds⟩, ⟨3, .diamonds⟩]],
    dealerIndex := 1, currentPlayerIndex := -1, lastRaiserIndex := -1,
    lastRaiseSize := 20, handNumber := 1, winners := none }

/-- C10 counterexample state: a showdown where seat 0 folded after
receiving cards. -/
def c10state : GameState :=
  { smallBlind := 10, bigBlind := 20, stage := Stage.SHOWDOWN, deck := [],
    communityCards := [], pot := 0,
    players := [mkSeat 0 0 100 0 10 true false true [⟨2, .hearts⟩, ⟨3, .clubs⟩],
                mkSeat 1 1 100 0 10 false false true [⟨4, .hearts⟩, ⟨5, .clubs⟩]],
    dealerIndex := 0, currentPlayerIndex := -1, lastRaiserIndex := -1,
    lastRaiseSize := 20, handNumber := 1, winners := none }

/-- C8 counterexample snapshot: nothing to call (check is legal), a
medium-quality made hand, comfortable stack. -/
def c8input : AIInput :=
  { street := "flop", potSize := 40, currentBet := 0, playerBet := 0, playerChips := 100,
    minRaise := 20, callAmount := 0, position := "early", bigBlind := 20, smallBlind := 10,
    preflopStrength := 0,
    handStrength := some ⟨[3, 10, 4, 2], [], "两对"⟩,
    availableActions := [AvailAction.fold, AvailAction.check,
      AvailAction.raiseRange 40 100, AvailAction.allin 100] }

/-- A base state for the C1/C2 witnesses: two funded seats, waiting. -/
def c1base : GameState :=
  { smallBlind := 10, bigBlind := 20, stage := Stage.WAITING, deck := [],
    communityCards := [], pot := 0,
    players := [mkSeat 0 0 1000 0 0 false false false [],
                mkSeat 1 1 1000 0 0 false false false []],
    dealerIndex := -1, currentPlayerIndex := -1, lastRaiserIndex := -1,
    lastRaiseSize := 20, handNumber := 0, winners := none }

/-- C4 witness state: the spec's side-pot example — all-in totals
50/150/300 and a 400-chip caller, pot 900, nobody folded. -/
def c4state : GameState :=
  { smallBlind := 10, bigBlind := 20, stage := Stage.RIVER, deck := [],
    communityCards := [], pot := 900,
    players := [mkSeat 0 0 0 0 50 false true true [],
                mkSeat 1 1 0 0 150 false true true [],
                mkSeat 2 2 0 0 300 false true true [],
                mkSeat 3 3 100 0 400 false false true []],
    dealerIndex := 0, currentPlayerIndex := -1, lastRaiserIndex := -1,
    lastRaiseSize := 20, handNumber := 1, winners := none }

/-! ## Theorems -/

/-! ### Order facts about `compareScores` -/

theorem cmpScores_self (a : List Nat) : cmpScores a a = 0 := by
  induction a with
  | nil => simp [cmpScores, cmpZeros]
  | cons x xs ih => simp [cmpScores, ih]

theorem cmpZeros_eq_neg : ∀ b : List Nat, cmpZeros b = -cmpScores b [] := by
  intro b
  induction b with
  | nil => simp [cmpZeros, cmpScores]
  | cons y ys ih => by_cases h : y = 0 <;> simp [cmpZeros, cmpScores, h, ih]

theorem cmpScores_nil_left (b : List Nat) : cmpScores [] b = -cmpScores b [] :=
  cmpZeros_eq_neg b

theorem cmpScores_neg (a : List Nat) : ∀ b, cmpScores a b = -cmpScores b a := by
  induction a with
  | nil => exact cmpScores_nil_left
  | cons x xs ih =>
    intro b
    cases b with
    | nil =>
      rw [cmpScores_nil_left, neg_neg]
    | cons y ys =>
      by_cases h : x = y
      · simp [cmpScores, h, ih ys]
      · have h' : y ≠ x := fun hyx => h hyx.symm
        simp only [cmpScores, if_pos h, if_pos h']
        omega

theorem cmpScores_snoc_zero_right (b : List Nat) :
    ∀ a, cmpScores a (b ++ [0]) = cmpScores a b := by
  induction b with
  | nil =>
    intro a
    cases a with
    | nil => simp [cmpScores, cmpZeros]
    | cons x xs =>
      by_cases h : x = 0 <;> simp [cmpScores, cmpZeros, h]
  | cons y ys ih =>
    intro a
    cases a with
    | nil =>
      by_cases h : y = 0
      · simpa [cmpScores, cmpZeros, h] using ih []
      · simp [cmpScores, cmpZeros, h]
    | cons x xs => by_cases h : x = y <;> simp [cmpScores, h, ih xs]

theorem cmpScores_snoc_zero_left (b : List Nat) :
    ∀ a, cmpScores (a ++ [0]) b = cmpScores a b := by
  intro a
  rw [cmpScores_neg, cmpScores_snoc_zero_right, ← cmpScores_neg]

theorem cmpScores_pad_right (a b : List Nat) (k : Nat) :
    cmpScores a (b ++ List.replicate k 0) = cmpScores a b := by
  induction k generalizing b with
  | zero => simp
  | succ n ih =>
    have h : b ++ List.replicate (n + 1) 0 = (b ++ [0]) ++ List.replicate n 0 := by
      simp [List.replicate_succ]
    rw [h, ih (b ++ [0]), cmpScores_snoc_zero_right]

theorem cmpScores_pad_left (a b : List Nat) (k : Nat) :
    cmpScores (a ++ List.replicate k 0) b = cmpScores a b := by
  rw [cmpScores_neg, cmpScores_pad_right, ← cmpScores_neg]

theorem cmpScores_trans_eqlen :
    ∀ a b c : List Nat, a.length = b.length → b.length = c.length →
      0 ≤ cmpScores a b → 0 ≤ cmpScores b c → 0 ≤ cmpScores a c := by
  intro a
  induction a with
  | nil =>
    intro b c hab hbc _ h2
    cases b with
    | nil =>
      cases c with
      | nil => exact h2
      | cons z zs => simp at hbc
    | cons y ys => simp at hab
  | cons x xs ih =>
    intro b c hab hbc h1 h2
    cases b with
    | nil => simp at hab
    | cons y ys =>
      cases c with
      | nil => simp at hbc
      | cons z zs =>
        have hab' : xs.length = ys.length := by simpa using hab
        have hbc' : ys.length = zs.length := by simpa using hbc
        by_cases hxy : x = y
        · subst hxy
          by_cases hxz : x = z
          · subst hxz
            simp only [cmpScores, if_neg (fun h : x ≠ x => h rfl)] at h1 h2 ⊢
            exact ih ys zs hab' hbc' h1 h2
          · simp only [cmpScores, if_neg (fun h : x ≠ x => h rfl), if_pos hxz] at h2 ⊢
            exact h2
        · by_cases hyz : y = z
          · subst hyz
            simp only [cmpScores, if_pos hxy] at h1 ⊢
            exact h1
          · simp only [cmpScores, if_pos hxy] at h1
            simp only [cmpScores, if_pos hyz] at h2
            have hxz : x ≠ z := by omega
            simp only [cmpScores, if_pos hxz]
            omega

theorem cmpScores_trans {a b c : List Nat} (h1 : 0 ≤ cmpScores a b)
    (h2 : 0 ≤ cmpScores b c) : 0 ≤ cmpScores a c := by
  set n := max a.length (max b.length c.length) with hn
  have ha : a.length ≤ n := le_max_left _ _
  have hb : b.length ≤ n := le_trans (le_max_left _ _) (le_max_right _ _)
  have hc : c.length ≤ n := le_trans (le_max_right _ _) (le_max_right _ _)
  have pa : (a ++ List.replicate (n - a.length) 0).length = n := by
    simp; omega
  have pb : (b ++ List.replicate (n - b.length) 0).length = n := by
    simp; omega
  have pc : (c ++ List.replicate (n - c.length) 0).length = n := by
    simp; omega
  have e1 : cmpScores (a ++ List.replicate (n - a.length) 0)
      (b ++ List.replicate (n - b.length) 0) = cmpScores a b := by
    rw [cmpScores_pad_left, cmpScores_pad_right]
  have e2 : cmpScores (b ++ List.replicate (n - b.length) 0)
      (c ++ List.replicate (n - c.length) 0) = cmpScores b c := by
    rw [cmpScores_pad_left, cmpScores_pad_right]
  have e3 : cmpScores (a ++ List.replicate (n - a.length) 0)
      (c ++ List.replicate (n - c.length) 0) = cmpScores a c := by
    rw [cmpScores_pad_left, cmpScores_pad_right]
  have h := cmpScores_trans_eqlen
    (a ++ List.replicate (n - a.length) 0)
    (b ++ List.replicate (n - b.length) 0)
    (c ++ List.replicate (n - c.length) 0)
    (pa.trans pb.symm) (pb.trans pc.symm)
    (by rw [e1]; exact h1) (by rw [e2]; exact h2)
  rwa [e3] at h

/-! ### Facts about `_combinations` -/

theorem length_of_mem_combinations {α : Type} :
    ∀ (l : List α) (k : Nat) (c : List α), c ∈ combinations l k → c.length = k := by
  intro l
  induction l with
  | nil =>
    intro k c h
    cases k with
    | zero => simp [combinations] at h; simp [h]
    | succ n => simp [combinations] at h
  | cons x xs ih =>
    intro k c h
    cases k with
    | zero => simp [combinations] at h; simp [h]
    | succ n =>
      simp only [combinations, List.mem_append, List.mem_map] at h
      rcases h with ⟨c', hc', rfl⟩ | h
      · simpa using ih n c' hc'
      · exact ih (n + 1) c h

theorem sublist_of_mem_combinations {α : Type} :
    ∀ (l : List α) (k : Nat) (c : List α), c ∈ combinations l k → c.Sublist l := by
  intro l
  induction l with
  | nil =>
    intro k c h
    cases k with
    | zero => simp [combinations] at h; simp [h]
    | succ n => simp [combinations] at h
  | cons x xs ih =>
    intro k c h
    cases k with
    | zero =>
      simp [combinations] at h
      simp [h]
    | succ n =>
      simp only [combinations, List.mem_append, List.mem_map] at h
      rcases h with ⟨c', hc', rfl⟩ | h
      · exact (ih n c' hc').cons₂ x
      · exact (ih (n + 1) c h).cons x

theorem combinations_ne_nil {α : Type} :
    ∀ (l : List α) (k : Nat), k ≤ l.length → combinations l k ≠ [] := by
  intro l
  induction l with
  | nil =>
    intro k hk
    cases k with
    | zero => simp [combinations]
    | succ n => simp only [List.length_nil] at hk; omega
  | cons x xs ih =>
    intro k hk
    cases k with
    | zero => simp [combinations]
    | succ n =>
      have : n ≤ xs.length := by simpa using hk
      have hne := ih n this
      simp only [combinations, ne_eq, List.append_eq_nil, List.map_eq_nil_iff]
      intro ⟨h1, _⟩
      exact hne h1

/-! ### The fold of `evaluate` returns a maximal combination -/

theorem bestFold_spec (combos : List (List Card)) :
    ∀ init : List Nat × List Card,
      (bestFold combos init = init ∨
        ∃ c ∈ combos, bestFold combos init = (evaluate5 c, c)) ∧
      0 ≤ cmpScores (bestFold combos init).1 init.1 ∧
      ∀ c ∈ combos, 0 ≤ cmpScores (bestFold combos init).1 (evaluate5 c) := by
  induction combos with
  | nil =>
    intro init
    refine ⟨Or.inl rfl, ?_, by simp⟩
    simp [bestFold, cmpScores_self]
  | cons c cs ih =>
    intro init
    by_cases hcmp : 0 < cmpScores (evaluate5 c) init.1
    · have hstep : bestFold (c :: cs) init = bestFold cs (evaluate5 c, c) := by
        simp [bestFold, hcmp]
      obtain ⟨hprov, hge, hall⟩ := ih (evaluate5 c, c)
      refine ⟨?_, ?_, ?_⟩
      · rw [hstep]
        rcases hprov with h | ⟨c', hc', h⟩
        · exact Or.inr ⟨c, List.mem_cons_self c cs, h⟩
        · exact Or.inr ⟨c', List.mem_cons_of_mem _ hc', h⟩
      · rw [hstep]
        exact cmpScores_trans hge (le_of_lt hcmp)
      · intro c' hc'
        rw [hstep]
        rcases List.mem_cons.mp hc' with rfl | hc'
        · exact hge
        · exact hall c' hc'
    · have hstep : bestFold (c :: cs) init = bestFold cs init := by
        simp [bestFold, hcmp]
      obtain ⟨hprov, hge, hall⟩ := ih init
      refine ⟨?_, ?_, ?_⟩
      · rw [hstep]
        rcases hprov with h | ⟨c', hc', h⟩
        · exact Or.inl h
        · exact Or.inr ⟨c', List.mem_cons_of_mem _ hc', h⟩
      · rw [hstep]; exact hge
      · intro c' hc'
        rw [hstep]
        rcases List.mem_cons.mp hc' with rfl | hc'
        · have h0 : 0 ≤ cmpScores init.1 (evaluate5 c') := by
            rw [cmpScores_neg]
            omega
          exact cmpScores_trans hge h0
        · exact hall c' hc'

/-- C6: For every 5-to-7-card input, `HandEvaluator.evaluate` returns the
evaluation of some 5-card subset whose score is maximal under
`compareScores` among all 5-card subsets, together with that literal
subset as `bestCards`. -/
theorem evaluate_returns_maximal_subset (cards : List Card)
    (h5 : 5 ≤ cards.length) (h7 : cards.length ≤ 7) :
    (evaluate cards).bestCards ∈ combinations cards 5 ∧
    (evaluate cards).bestCards.length = 5 ∧
    (evaluate cards).bestCards.Sublist cards ∧
    (evaluate cards).score = evaluate5 (evaluate cards).bestCards ∧
    ∀ c ∈ combinations cards 5, 0 ≤ cmpScores (evaluate cards).score (evaluate5 c) := by
  have hne := combinations_ne_nil cards 5 h5
  obtain ⟨c, rest, hcc⟩ : ∃ c rest, combinations cards 5 = c :: rest := by
    cases h : combinations cards 5 with
    | nil => exact absurd h hne
    | cons c rest => exact ⟨c, rest, rfl⟩
  obtain ⟨hprov, hge, hall⟩ := bestFold_spec rest (evaluate5 c, c)
  have hsc : (evaluate cards).score = (bestFold rest (evaluate5 c, c)).1 := by
    simp [evaluate, hcc]
  have hbc : (evaluate cards).bestCards = (bestFold rest (evaluate5 c, c)).2 := by
    simp [evaluate, hcc]
  have hmem : (evaluate cards).bestCards ∈ combinations cards 5 := by
    rw [hcc]
    rcases hprov with h | ⟨c', hc', h⟩
    · rw [hbc, h]
      exact List.mem_cons_self c rest
    · rw [hbc, h]
      exact List.mem_cons_of_mem _ hc'
  have hscore : (evaluate cards).score = evaluate5 (evaluate cards).bestCards := by
    rcases hprov with h | ⟨c', hc', h⟩ <;> rw [hsc, hbc, h]
  refine ⟨hmem, length_of_mem_combinations cards 5 _ hmem,
    sublist_of_mem_combinations cards 5 _ hmem, hscore, ?_⟩
  intro c' hc'
  rw [hcc] at hc'
  rcases List.mem_cons.mp hc' with rfl | hc'
  · rw [hsc]; exact hge
  · rw [hsc]; exact hall c' hc'

theorem evaluate_returns_maximal_subset_witness :
    5 ≤ c6cards.length ∧ c6cards.length ≤ 7 ∧
    ((evaluate c6cards).bestCards ∈ combinations c6cards 5 ∧
      (evaluate c6cards).bestCards.length = 5 ∧
      (evaluate c6cards).bestCards.Sublist c6cards ∧
      (evaluate c6cards).score = evaluate5 (evaluate c6cards).bestCards ∧
      ∀ c ∈ combinations c6cards 5,
        0 ≤ cmpScores (evaluate c6cards).score (evaluate5 c)) :=
  ⟨by decide, by decide,
    evaluate_returns_maximal_subset c6cards (by decide) (by decide)⟩

/-- C7: For every suit assignment, A,2,3,4,5 evaluates as a straight
(straight flush when suited) with high card 5, and this score is
strictly below the corresponding 6-high straight of the same category
under `compareScores`. -/
theorem wheel_straight_high_card_five :
    ∀ s0 s1 s2 s3 s4 : Suit,
      (evaluate5 (wheelCards s0 s1 s2 s3 s4) =
        if s0 = s1 ∧ s1 = s2 ∧ s2 = s3 ∧ s3 = s4 then [9, 5] else [5, 5]) ∧
      cmpScores (evaluate5 (wheelCards s0 s1 s2 s3 s4))
        (evaluate5 (sixHighCards s0 s1 s2 s3 s4)) < 0 := by
  decide

/-! ### List plumbing for indexed updates -/

theorem getD_set_ne (l : List Player) (m : Nat) (a : Player) (j : Nat) (h : j ≠ m) :
    (l.set m a).getD j default = l.getD j default := by
  induction l generalizing m j with
  | nil => simp
  | cons x xs ih =>
    cases m with
    | zero =>
      cases j with
      | zero => omega
      | succ j' => simp [List.set]
    | succ m' =>
      cases j with
      | zero => simp [List.set]
      | succ j' => simpa [List.set] using ih m' j' (by omega)

theorem enumFromMap_getD {β : Type} [Inhabited β] (f : Nat × Player → β) :
    ∀ (ps : List Player) (n j : Nat), j < ps.length →
      ((ps.enumFrom n).map f).getD j default = f (n + j, ps.getD j default) := by
  intro ps
  induction ps with
  | nil => intro n j hj; simp at hj
  | cons p ps ih =>
    intro n j hj
    cases j with
    | zero => simp [List.enumFrom]
    | succ j' =>
      have hj' : j' < ps.length := by simpa using hj
      simp only [List.enumFrom, List.map_cons, List.getD_cons_succ]
      rw [ih (n + 1) j' hj']
      congr 2
      omega

theorem enumMap_getD {β : Type} [Inhabited β] (f : Nat × Player → β) (ps : List Player)
    (j : Nat) (hj : j < ps.length) :
    ((ps.enum.map f).getD j default) = f (j, ps.getD j default) := by
  have h := enumFromMap_getD f ps 0 j hj
  simpa [List.enum] using h

theorem clearActedExcept_getD (ps : List Player) (keep : Int) (j : Nat) (hj : j < ps.length) :
    (clearActedExcept ps keep).getD j default =
      (if ((j : Int) != keep) && !(ps.getD j default).folded && !(ps.getD j default).allIn
          && !(ps.getD j default).sittingOut then
        { ps.getD j default with acted := false }
      else ps.getD j default) := by
  unfold clearActedExcept
  exact enumMap_getD _ ps j hj

/-! ### C2: rejected actions leave the state unchanged -/

theorem handleCheck_outcome (s : GameState) (i : Int) (mb : ℤ) :
    (handleCheck s i mb).1.success = true ∨
      ((handleCheck s i mb).2 = s ∧ (handleCheck s i mb).1.error.isSome) := by
  simp only [handleCheck]
  split
  · exact Or.inr ⟨rfl, rfl⟩
  · exact Or.inl rfl

theorem handleCall_outcome (s : GameState) (i : Int) (mb : ℤ) :
    (handleCall s i mb).1.success = true ∨
      ((handleCall s i mb).2 = s ∧ (handleCall s i mb).1.error.isSome) := by
  simp only [handleCall]
  split
  · exact Or.inr ⟨rfl, rfl⟩
  · exact Or.inl rfl

theorem handleRaise_outcome (s : GameState) (i : Int) (rt mb : ℤ) :
    (handleRaise s i rt mb).1.success = true ∨
      ((handleRaise s i rt mb).2 = s ∧ (handleRaise s i rt mb).1.error.isSome) := by
  simp only [handleRaise]
  split
  · exact Or.inr ⟨rfl, rfl⟩
  · split
    · exact Or.inr ⟨rfl, rfl⟩
    · split
      · exact Or.inr ⟨rfl, rfl⟩
      · exact Or.inl rfl

theorem handleFold_success (s : GameState) (i : Int) :
    (handleFold s i).1.success = true := by
  simp only [handleFold]
  split <;> rfl

theorem handleAllIn_success (s : GameState) (i : Int) (mb : ℤ) :
    (handleAllIn s i mb).1.success = true := by
  simp only [handleAllIn]
  split <;> rfl

theorem handleAction_outcome (s : GameState) (pid : Nat) (act : String) (amt : ℤ) :
    (handleAction s pid act amt).1.success = true ∨
      ((handleAction s pid act amt).2 = s ∧ (handleAction s pid act amt).1.error.isSome) := by
  simp only [handleAction]
  split
  · exact Or.inr ⟨rfl, rfl⟩
  · split
    · exact Or.inr ⟨rfl, rfl⟩
    · split
      · exact Or.inr ⟨rfl, rfl⟩
      · split
        · exact Or.inr ⟨rfl, rfl⟩
        · split
          · exact Or.inl (handleFold_success _ _)
          · split
            · exact handleCheck_outcome _ _ _
            · split
              · exact handleCall_outcome _ _ _
              · split
                · exact handleRaise_outcome _ _ _ _
                · split
                  · exact Or.inl (handleAllIn_success _ _ _)
                  · exact Or.inr ⟨rfl, rfl⟩

/-- C2: every rejected `handleAction` call — unknown seat, wrong stage,
out of turn, incapacitated seat, or a betting-rule violation — returns a
structured rejection (an error string) and leaves the entire game state
unchanged. -/
theorem handleAction_rejection_leaves_state_unchanged (s : GameState) (pid : Nat)
    (act : String) (amt : ℤ) (h : (handleAction s pid act amt).1.success = false) :
    (handleAction s pid act amt).2 = s ∧ (handleAction s pid act amt).1.error.isSome := by
  rcases handleAction_outcome s pid act amt with h' | h'
  · rw [h'] at h
    cases h
  · exact h'

theorem handleAction_rejection_leaves_state_unchanged_witness :
    (handleAction c1base 0 "fold" 0).1.success = false ∧
    ((handleAction c1base 0 "fold" 0).2 = c1base ∧
      (handleAction c1base 0 "fold" 0).1.error.isSome) :=
  ⟨by decide, handleAction_rejection_leaves_state_unchanged c1base 0 "fold" 0 (by decide)⟩

/-! ### C3: reopening rules for all-ins -/

/-- C3 counterexample: in `c3state`, seat 0 goes all-in through the
`raise` action for 30, an increase of 10 over the 20-chip maximum — less
than the last raise increment of 20 — yet seat 1's `acted` flag is
cleared, so the claim's "acted flag unchanged for a short all-in by
whichever action" is false on the code. -/
theorem c3_short_allin_via_raise_clears_acted :
    (handleAction c3state 0 "raise" 30).1.success = true ∧
    (getPlayer (handleAction c3state 0 "raise" 30).2.players 0).allIn = true ∧
    (30 : ℤ) - getCurrentMaxBet c3state < c3state.lastRaiseSize ∧
    (getPlayer c3state.players 1).acted = true ∧
    (getPlayer (handleAction c3state 0 "raise" 30).2.players 1).acted = false ∧
    (handleAction c3state 0 "raise" 30).2.lastRaiserIndex = 0 := by
  decide

/-- C3 (amended): the short-all-in/no-reopen rule holds for the `allin`
action, stated of the all-in mutation itself (before turn/stage
advancement, which resets the per-street flags wholesale): if the new
street bet exceeds the previous table maximum by less than the last
raise increment, no other seat's `acted` flag changes and the last
raiser and raise size are unchanged; if the increase is at least the
increment, the actor becomes the recorded last raiser, the raise size
becomes the increase, and every other live, non-all-in, in-hand seat's
`acted` flag is cleared.  (An all-in via the `raise` action always
reopens; a call all-in never increases the street bet above the
maximum.) -/
theorem allin_action_reopen_rule (s : GameState) (idx : Int)
    (hlrs : 0 < s.lastRaiseSize) :
    ((getPlayer s.players idx).bet + (getPlayer s.players idx).chips
        - getCurrentMaxBet s < s.lastRaiseSize →
      (allInBet s idx (getCurrentMaxBet s)).lastRaiserIndex = s.lastRaiserIndex ∧
      (allInBet s idx (getCurrentMaxBet s)).lastRaiseSize = s.lastRaiseSize ∧
      ∀ j : Nat, j ≠ idx.toNat →
        ((allInBet s idx (getCurrentMaxBet s)).players.getD j default).acted =
          (s.players.getD j default).acted) ∧
    (s.lastRaiseSize ≤ (getPlayer s.players idx).bet + (getPlayer s.players idx).chips
        - getCurrentMaxBet s →
      (allInBet s idx (getCurrentMaxBet s)).lastRaiserIndex = idx ∧
      (allInBet s idx (getCurrentMaxBet s)).lastRaiseSize =
        (getPlayer s.players idx).bet + (getPlayer s.players idx).chips
          - getCurrentMaxBet s ∧
      ∀ j : Nat, j ≠ idx.toNat → j < s.players.length →
        (s.players.getD j default).folded = false →
        (s.players.getD j default).allIn = false →
        (s.players.getD j default).sittingOut = false →
        ((allInBet s idx (getCurrentMaxBet s)).players.getD j default).acted = false) := by
  constructor
  · intro hshort
    have hnr : ¬ s.lastRaiseSize ≤
        (getPlayer s.players idx).bet + (getPlayer s.players idx).chips
          - getCurrentMaxBet s := not_le.mpr hshort
    simp only [allInBet]
    by_cases hlt : getCurrentMaxBet s <
        (getPlayer s.players idx).bet + (getPlayer s.players idx).chips
    · rw [if_pos hlt, if_neg hnr]
      refine ⟨rfl, rfl, ?_⟩
      intro j hj
      simp only [setPlayer]
      rw [getD_set_ne _ _ _ _ hj, getD_set_ne _ _ _ _ hj]
    · rw [if_neg hlt]
      refine ⟨rfl, rfl, ?_⟩
      intro j hj
      simp only [setPlayer]
      rw [getD_set_ne _ _ _ _ hj, getD_set_ne _ _ _ _ hj]
  · intro hre
    have hpos : (0 : ℤ) <
        (getPlayer s.players idx).bet + (getPlayer s.players idx).chips
          - getCurrentMaxBet s := lt_of_lt_of_le hlrs hre
    have hlt : getCurrentMaxBet s <
        (getPlayer s.players idx).bet + (getPlayer s.players idx).chips := by omega
    simp only [allInBet]
    rw [if_pos hlt, if_pos hre]
    refine ⟨rfl, rfl, ?_⟩
    intro j hj hjlen hf ha hso
    simp only [setPlayer]
    rw [getD_set_ne _ _ _ _ hj]
    have hjlen' : j < (List.set s.players idx.toNat
        { getPlayer s.players idx with
          chips := 0
          totalBet := (getPlayer s.players idx).totalBet + (getPlayer s.players idx).chips
          acted := true
          allIn := true }).length := by
      simpa using hjlen
    rw [clearActedExcept_getD _ _ _ hjlen']
    have hne : ((j : Int) != idx) = true := by
      simp only [bne_iff_ne, ne_eq]
      omega
    rw [getD_set_ne _ _ _ _ hj]
    simp only [List.getD_eq_getElem?_getD] at hf ha hso
    simp [hne, hf, ha, hso]

theorem allin_action_reopen_rule_witness :
    (0 : ℤ) < c3state.lastRaiseSize ∧
    ((getPlayer c3state.players 0).bet + (getPlayer c3state.players 0).chips
        - getCurrentMaxBet c3state < c3state.lastRaiseSize →
      (allInBet c3state 0 (getCurrentMaxBet c3state)).lastRaiserIndex =
        c3state.lastRaiserIndex ∧
      (allInBet c3state 0 (getCurrentMaxBet c3state)).lastRaiseSize =
        c3state.lastRaiseSize ∧
      ∀ j : Nat, j ≠ (0 : Int).toNat →
        ((allInBet c3state 0 (getCurrentMaxBet c3state)).players.getD j default).acted =
          (c3state.players.getD j default).acted) :=
  ⟨by decide, (allin_action_reopen_rule c3state 0 (by decide)).1⟩

/-! ### C10: hole-card redaction in snapshots -/

/-- C10 counterexample: during SHOWDOWN the snapshot for seat 1 still
redacts the folded seat 0's hole cards, so "during SHOWDOWN other seats'
hole cards are not redacted" is false as stated. -/
theorem c10_showdown_folded_seat_still_redacted :
    c10state.stage = Stage.SHOWDOWN ∧
    (c10state.players.getD 0 default).id ≠ 1 ∧
    (c10state.players.getD 0 default).hand.length = 2 ∧
    ((getGameState c10state (some 1)).players.getD 0 default).hand = none := by
  decide

/-- C10 (amended): a snapshot for seat `r` never contains another seat's
hole cards outside SHOWDOWN; during SHOWDOWN another seat's hole cards
are revealed exactly when that seat has not folded and holds cards —
folded seats stay redacted. -/
theorem getGameState_redacts_other_hands (s : GameState) (r : Nat) (j : Nat)
    (hj : j < s.players.length) (hother : (s.players.getD j default).id ≠ r) :
    (s.stage ≠ Stage.SHOWDOWN →
      ((getGameState s (some r)).players.getD j default).hand = none) ∧
    (s.stage = Stage.SHOWDOWN →
      ((getGameState s (some r)).players.getD j default).hand =
        (if (s.players.getD j default).folded = false ∧
            0 < (s.players.getD j default).hand.length
         then some (s.players.getD j default).hand else none)) := by
  have hbeq : ((s.players.getD j default).id == r) = false :=
    beq_eq_false_iff_ne.mpr hother
  have hentry : ((getGameState s (some r)).players.getD j default).hand =
      (if s.stage == Stage.SHOWDOWN && !(s.players.getD j default).folded &&
          decide (0 < (s.players.getD j default).hand.length) then
        some (s.players.getD j default).hand
      else none) := by
    simp only [getGameState]
    rw [enumMap_getD _ s.players j hj]
    simp only [hbeq, Bool.false_and, Bool.and_eq_true]
    rfl
  constructor
  · intro hstage
    rw [hentry]
    have : (s.stage == Stage.SHOWDOWN) = false := by
      simpa using hstage
    simp [this]
  · intro hstage
    rw [hentry, hstage]
    by_cases hf : (s.players.getD j default).folded
    · simp [hf]
    · by_cases hl : 0 < (s.players.getD j default).hand.length
      · simp [hf, hl]
      · simp [hf, hl]

theorem getGameState_redacts_other_hands_witness :
    (0 : Nat) < c10state.players.length ∧
    (c10state.players.getD 0 default).id ≠ 1 ∧
    (c10state.stage = Stage.SHOWDOWN →
      ((getGameState c10state (some 1)).players.getD 0 default).hand =
        (if (c10state.players.getD 0 default).folded = false ∧
            0 < (c10state.players.getD 0 default).hand.length
         then some (c10state.players.getD 0 default).hand else none)) :=
  ⟨by decide, by decide,
    (getGameState_redacts_other_hands c10state 1 0 (by decide) (by decide)).2⟩

/-! ### C5: odd-chip distribution at showdown -/

/-- C5: at the failing input `c5state` the seats 0 and 2 are tied for
the single 101-chip pot with the dealer button on seat 1.  The first
tied winner in seating order from the dealer's left is seat 2, but the
code awards the odd chip by array order: seat 0 receives 51 and seat 2
receives 50, matching the source comment's intent ("closest left of
dealer") on neither count. -/
theorem c5_odd_chip_goes_to_lowest_index_not_dealers_left :
    c5state.dealerIndex = 1 ∧
    cmpScores (evaluate ((c5state.players.getD 0 default).hand ++ c5state.communityCards)).score
      (evaluate ((c5state.players.getD 2 default).hand ++ c5state.communityCards)).score = 0 ∧
    ((showdown c5state).players.getD 0 default).chips = 51 ∧
    ((showdown c5state).players.getD 2 default).chips = 50 := by
  decide

/-! ### C8: the action-mix quadruple -/

theorem baseActionProbs_nonneg (label : String) :
    0 ≤ (baseActionProbs label).fold ∧ 0 ≤ (baseActionProbs label).check ∧
    0 ≤ (baseActionProbs label).call ∧ 0 ≤ (baseActionProbs label).raise := by
  unfold baseActionProbs
  split_ifs <;> norm_num

theorem mixStepPersonality_nonneg (w : ActionWeights) (m : ActionMix)
    (hw : 0 ≤ w.raiseBoost ∧ 0 ≤ w.callBoost ∧ 0 ≤ w.foldBoost)
    (hm : 0 ≤ m.fold ∧ 0 ≤ m.check ∧ 0 ≤ m.call ∧ 0 ≤ m.raise) :
    0 ≤ (mixStepPersonality w m).fold ∧ 0 ≤ (mixStepPersonality w m).check ∧
    0 ≤ (mixStepPersonality w m).call ∧ 0 ≤ (mixStepPersonality w m).raise := by
  exact ⟨mul_nonneg hm.1 hw.2.2, hm.2.1, mul_nonneg hm.2.2.1 hw.2.1,
    mul_nonneg hm.2.2.2 hw.1⟩

theorem mixStepBluff_nonneg (label : String) (w : ActionWeights) (m : ActionMix)
    (hw : 0 ≤ w.bluffBoost)
    (hm : 0 ≤ m.fold ∧ 0 ≤ m.check ∧ 0 ≤ m.call ∧ 0 ≤ m.raise) :
    0 ≤ (mixStepBluff label w m).fold ∧ 0 ≤ (mixStepBluff label w m).check ∧
    0 ≤ (mixStepBluff label w m).call ∧ 0 ≤ (mixStepBluff label w m).raise := by
  unfold mixStepBluff
  split_ifs
  · exact ⟨hm.1, hm.2.1, hm.2.2.1, mul_nonneg hm.2.2.2 hw⟩
  · exact hm

theorem mixStepSlowplay_nonneg (label : String) (w : ActionWeights) (m : ActionMix)
    (hw : 0 ≤ w.slowplayBoost)
    (hm : 0 ≤ m.fold ∧ 0 ≤ m.check ∧ 0 ≤ m.call ∧ 0 ≤ m.raise) :
    0 ≤ (mixStepSlowplay label w m).fold ∧ 0 ≤ (mixStepSlowplay label w m).check ∧
    0 ≤ (mixStepSlowplay label w m).call ∧ 0 ≤ (mixStepSlowplay label w m).raise := by
  unfold mixStepSlowplay
  split_ifs
  · exact ⟨hm.1, mul_nonneg hm.2.1 hw, mul_nonneg hm.2.2.1 hw, hm.2.2.2⟩
  · exact hm

theorem mixStepPosition_nonneg (input : AIInput) (m : ActionMix)
    (hm : 0 ≤ m.fold ∧ 0 ≤ m.check ∧ 0 ≤ m.call ∧ 0 ≤ m.raise) :
    0 ≤ (mixStepPosition input m).fold ∧ 0 ≤ (mixStepPosition input m).check ∧
    0 ≤ (mixStepPosition input m).call ∧ 0 ≤ (mixStepPosition input m).raise := by
  unfold mixStepPosition
  split_ifs
  · exact ⟨mul_nonneg hm.1 (by norm_num), hm.2.1, hm.2.2.1,
      mul_nonneg hm.2.2.2 (by norm_num)⟩
  · exact hm

theorem mixStepPotOdds_nonneg (input : AIInput) (m : ActionMix)
    (hm : 0 ≤ m.fold ∧ 0 ≤ m.check ∧ 0 ≤ m.call ∧ 0 ≤ m.raise) :
    0 ≤ (mixStepPotOdds input m).fold ∧ 0 ≤ (mixStepPotOdds input m).check ∧
    0 ≤ (mixStepPotOdds input m).call ∧ 0 ≤ (mixStepPotOdds input m).raise := by
  simp only [mixStepPotOdds]
  split_ifs
  · exact ⟨mul_nonneg hm.1 (by norm_num), hm.2.1,
      mul_nonneg hm.2.2.1 (by norm_num), hm.2.2.2⟩
  · exact ⟨mul_nonneg hm.1 (by norm_num), hm.2.1,
      mul_nonneg hm.2.2.1 (by norm_num), hm.2.2.2⟩
  · exact hm
  · exact hm

theorem mixStepShortStack_nonneg (input : AIInput) (m : ActionMix)
    (hm : 0 ≤ m.fold ∧ 0 ≤ m.check ∧ 0 ≤ m.call ∧ 0 ≤ m.raise) :
    0 ≤ (mixStepShortStack input m).fold ∧ 0 ≤ (mixStepShortStack input m).check ∧
    0 ≤ (mixStepShortStack input m).call ∧ 0 ≤ (mixStepShortStack input m).raise := by
  obtain ⟨hf, hc, hk, hr⟩ := hm
  simp only [mixStepShortStack]
  split_ifs
  · have h1 : 0 ≤ m.call * (3/10) := mul_nonneg hk (by norm_num)
    have h2 : 0 ≤ m.check * (1/2) := mul_nonneg hc (by norm_num)
    have h3 : 0 ≤ m.call * (7/10) := mul_nonneg hk (by norm_num)
    exact ⟨by linarith, le_refl 0, le_refl 0, by linarith⟩
  · exact ⟨hf, hc, hk, hr⟩

theorem mixStepLegality_nonneg (input : AIInput) (m : ActionMix)
    (hm : 0 ≤ m.fold ∧ 0 ≤ m.check ∧ 0 ≤ m.call ∧ 0 ≤ m.raise) :
    0 ≤ (mixStepLegality input m).fold ∧ 0 ≤ (mixStepLegality input m).check ∧
    0 ≤ (mixStepLegality input m).call ∧ 0 ≤ (mixStepLegality input m).raise := by
  obtain ⟨hf, hc, hk, hr⟩ := hm
  simp only [mixStepLegality]
  split_ifs <;>
    (try dsimp only) <;>
    refine ⟨?_, ?_, ?_, ?_⟩ <;>
    first
      | exact le_refl 0
      | assumption
      | linarith

theorem mixStepLegality_check_zero (input : AIInput) (m : ActionMix)
    (hcc : canCheckInput input = false) :
    (mixStepLegality input m).check = 0 := by
  cases hnc : needsCallInput input <;> simp [mixStepLegality, hcc, hnc] <;>
    split_ifs <;> rfl

theorem mixStepLegality_raise_zero (input : AIInput) (m : ActionMix)
    (hcr : canRaiseInput input = false) :
    (mixStepLegality input m).raise = 0 := by
  simp [mixStepLegality, hcr]

theorem mixNormalize_sum (input : AIInput) (m : ActionMix)
    (hm : 0 ≤ m.fold ∧ 0 ≤ m.check ∧ 0 ≤ m.call ∧ 0 ≤ m.raise) :
    (mixNormalize input m).fold + (mixNormalize input m).check +
      (mixNormalize input m).call + (mixNormalize input m).raise = 1 := by
  obtain ⟨hf, hc, hk, hr⟩ := hm
  simp only [mixNormalize]
  by_cases ht : 0 < m.fold + m.check + m.call + m.raise
  · rw [if_pos ht]
    dsimp only
    rw [div_add_div_same, div_add_div_same, div_add_div_same]
    exact div_self (ne_of_gt ht)
  · rw [if_neg ht]
    push_neg at ht
    have hk0 : m.call = 0 := by linarith
    have hr0 : m.raise = 0 := by linarith
    cases hcc : canCheckInput input <;> simp [hcc, hk0, hr0]

theorem mixNormalize_check_zero (input : AIInput) (m : ActionMix)
    (hcc : canCheckInput input = false) (h : m.check = 0) :
    (mixNormalize input m).check = 0 := by
  simp only [mixNormalize]
  by_cases ht : 0 < m.fold + m.check + m.call + m.raise
  · rw [if_pos ht]
    dsimp only
    rw [h, zero_div]
  · rw [if_neg ht]
    simp [hcc]

theorem mixNormalize_raise_zero (input : AIInput) (m : ActionMix) (h : m.raise = 0) :
    (mixNormalize input m).raise = 0 := by
  simp only [mixNormalize]
  by_cases ht : 0 < m.fold + m.check + m.call + m.raise
  · rw [if_pos ht]
    dsimp only
    rw [h, zero_div]
  · rw [if_neg ht]
    exact h

/-- C8 counterexample: at `c8input` (nothing to call; check legal; call
absent from the legal action set), the medium-quality balanced mix keeps
a 19/50 probability on `call`, refuting "every action absent from the
legal set is assigned probability exactly 0". -/
theorem c8_call_weight_not_cleared :
    (computeActionMix c8input (computeQuality c8input) balancedConfig).call = 19/50 ∧
    hasCallEntry c8input.availableActions = false := by
  have e0 : computeQuality c8input = 11/20 := rfl
  have e1 : qualityToLabel (11/20) = "medium" := by norm_num [qualityToLabel]
  have e2 : baseActionProbs "medium" = ⟨3/25, 1/4, 19/50, 1/4⟩ := rfl
  have e3 : mixStepPersonality balancedConfig.actionWeights ⟨3/25, 1/4, 19/50, 1/4⟩ =
      ⟨3/25, 1/4, 19/50, 1/4⟩ := by
    simp [mixStepPersonality, balancedConfig]
  have e4 : mixStepBluff "medium" balancedConfig.actionWeights ⟨3/25, 1/4, 19/50, 1/4⟩ =
      ⟨3/25, 1/4, 19/50, 1/4⟩ := by
    simp [mixStepBluff]
  have e5 : mixStepSlowplay "medium" balancedConfig.actionWeights ⟨3/25, 1/4, 19/50, 1/4⟩ =
      ⟨3/25, 1/4, 19/50, 1/4⟩ := by
    simp [mixStepSlowplay]
  have e6 : mixStepPosition c8input ⟨3/25, 1/4, 19/50, 1/4⟩ = ⟨3/25, 1/4, 19/50, 1/4⟩ := by
    simp [mixStepPosition, c8input]
  have e7 : mixStepPotOdds c8input ⟨3/25, 1/4, 19/50, 1/4⟩ = ⟨3/25, 1/4, 19/50, 1/4⟩ := by
    norm_num [mixStepPotOdds, c8input]
  have e8 : mixStepShortStack c8input ⟨3/25, 1/4, 19/50, 1/4⟩ =
      ⟨3/25, 1/4, 19/50, 1/4⟩ := by
    norm_num [mixStepShortStack, c8input]
  have hcc : canCheckInput c8input = true := rfl
  have hnc : needsCallInput c8input = false := rfl
  have hcr : canRaiseInput c8input = true := rfl
  have e9 : mixStepLegality c8input ⟨3/25, 1/4, 19/50, 1/4⟩ = ⟨0, 37/100, 19/50, 1/4⟩ := by
    simp only [mixStepLegality, hcc, hnc, hcr, Bool.not_true, Bool.not_false,
      Bool.false_and, Bool.true_and, Bool.and_false, Bool.and_self]
    norm_num
  have e10 : mixNormalize c8input ⟨0, 37/100, 19/50, 1/4⟩ = ⟨0, 37/100, 19/50, 1/4⟩ := by
    have ht : (0:ℚ) < 0 + 37/100 + 19/50 + 1/4 := by norm_num
    simp only [mixNormalize]
    rw [if_pos ht]
    norm_num
  have : computeActionMix c8input (computeQuality c8input) balancedConfig =
      ⟨0, 37/100, 19/50, 1/4⟩ := by
    simp only [computeActionMix, e0, e1, e2, e3, e4, e5, e6, e7, e8, e9, e10]
  rw [this]
  exact ⟨rfl, rfl⟩

/-- C8 (amended): for every decision snapshot, quality and personality
configuration with non-negative weights, the `computeActionMix`
quadruple sums exactly to 1; `check` receives probability 0 whenever
check is not legal (not listed and a bet is outstanding), and `raise`
receives probability 0 whenever no raise entry is listed.  An absent
`call` (nothing to call, check legal) may retain positive probability —
the legality step never clears the call weight in that case. -/
theorem computeActionMix_sum_one_and_illegal_zero (input : AIInput) (quality : ℚ)
    (pConfig : PersonalityConfig)
    (hw : 0 ≤ pConfig.actionWeights.raiseBoost ∧ 0 ≤ pConfig.actionWeights.callBoost ∧
      0 ≤ pConfig.actionWeights.foldBoost ∧ 0 ≤ pConfig.actionWeights.bluffBoost ∧
      0 ≤ pConfig.actionWeights.slowplayBoost) :
    ((computeActionMix input quality pConfig).fold +
      (computeActionMix input quality pConfig).check +
      (computeActionMix input quality pConfig).call +
      (computeActionMix input quality pConfig).raise = 1) ∧
    (canCheckInput input = false → (computeActionMix input quality pConfig).check = 0) ∧
    (canRaiseInput input = false → (computeActionMix input quality pConfig).raise = 0) := by
  have h0 := baseActionProbs_nonneg (qualityToLabel quality)
  have h1 := mixStepPersonality_nonneg pConfig.actionWeights _
    ⟨hw.1, hw.2.1, hw.2.2.1⟩ h0
  have h2 := mixStepBluff_nonneg (qualityToLabel quality) pConfig.actionWeights _
    hw.2.2.2.1 h1
  have h3 := mixStepSlowplay_nonneg (qualityToLabel quality) pConfig.actionWeights _
    hw.2.2.2.2 h2
  have h4 := mixStepPosition_nonneg input _ h3
  have h5 := mixStepPotOdds_nonneg input _ h4
  have h6 := mixStepShortStack_nonneg input _ h5
  have h7 := mixStepLegality_nonneg input _ h6
  refine ⟨?_, ?_, ?_⟩
  · exact mixNormalize_sum input _ h7
  · intro hcc
    exact mixNormalize_check_zero input _ hcc (mixStepLegality_check_zero input _ hcc)
  · intro hcr
    exact mixNormalize_raise_zero input _ (mixStepLegality_raise_zero input _ hcr)

theorem computeActionMix_sum_one_and_illegal_zero_witness :
    ((0:ℚ) ≤ balancedConfig.actionWeights.raiseBoost ∧
      (0:ℚ) ≤ balancedConfig.actionWeights.callBoost ∧
      (0:ℚ) ≤ balancedConfig.actionWeights.foldBoost ∧
      (0:ℚ) ≤ balancedConfig.actionWeights.bluffBoost ∧
      (0:ℚ) ≤ balancedConfig.actionWeights.slowplayBoost) ∧
    ((computeActionMix c8input (11/20) balancedConfig).fold +
      (computeActionMix c8input (11/20) balancedConfig).check +
      (computeActionMix c8input (11/20) balancedConfig).call +
      (computeActionMix c8input (11/20) balancedConfig).raise = 1) :=
  ⟨⟨by norm_num [balancedConfig], by norm_num [balancedConfig], by norm_num [balancedConfig],
    by norm_num [balancedConfig], by norm_num [balancedConfig]⟩,
    (computeActionMix_sum_one_and_illegal_zero c8input (11/20) balancedConfig
      ⟨by norm_num [balancedConfig], by norm_num [balancedConfig],
        by norm_num [balancedConfig], by norm_num [balancedConfig],
        by norm_num [balancedConfig]⟩).1⟩

/-! ### C9: LLM advisory non-interference -/

theorem applyLLM_action (d : Decision) (sa : String) (sr : Option (ℚ × ℚ))
    (llm : Option LLMParsed) : (applyLLM d sa sr llm).action = d.action := by
  cases llm with
  | none => rfl
  | some l =>
    obtain ⟨amt, rs⟩ := l
    cases amt with
    | none =>
      cases sr with
      | none => rfl
      | some p => rfl
    | some a =>
      cases sr with
      | none => rfl
      | some p =>
        obtain ⟨lo, hi⟩ := p
        simp only [applyLLM]
        split_ifs <;> rfl

theorem applyLLM_amount (d : Decision) (sa : String) (sr : Option (ℚ × ℚ))
    (llm : Option LLMParsed) :
    (applyLLM d sa sr llm).amount = d.amount ∨
      ∃ lo hi : ℚ, sr = some (lo, hi) ∧ ∃ z : ℤ,
        (applyLLM d sa sr llm).amount = some ((z : ℤ) : ℚ) ∧
        lo ≤ ((z : ℤ) : ℚ) ∧ ((z : ℤ) : ℚ) ≤ hi := by
  cases llm with
  | none => exact Or.inl rfl
  | some l =>
    obtain ⟨amt, rs⟩ := l
    cases amt with
    | none =>
      cases sr with
      | none => exact Or.inl rfl
      | some p => exact Or.inl rfl
    | some a =>
      cases sr with
      | none => exact Or.inl rfl
      | some p =>
        obtain ⟨lo, hi⟩ := p
        simp only [applyLLM]
        split_ifs with h1 h2
        · exact Or.inr ⟨lo, hi, rfl, jsRound a, rfl, h2.1, h2.2⟩
        · exact Or.inl rfl
        · exact Or.inl rfl

theorem validateAction_congr (d e : Decision) (input : AIInput)
    (h1 : d.action = e.action) (h2 : d.amount = e.amount) :
    validateAction d input = validateAction e input := by
  unfold validateAction
  rw [h1, h2]

theorem validateAction_raise_eq (d : Decision) (input : AIInput) (lo hi amt : ℚ)
    (hact : d.action = "raise") (hamt : d.amount = some amt)
    (hfr : findRaiseRange input.availableActions = some (lo, hi)) :
    validateAction d input = (decide (lo ≤ amt) && decide (amt ≤ hi)) := by
  unfold validateAction
  rw [hact, hamt, hfr]
  simp

theorem decideAux_spec (input : AIInput) (sa : String)
    (pair : Option ℚ × Option (ℚ × ℚ))
    (hcoup : ∀ lo hi : ℚ, pair.2 = some (lo, hi) →
      findRaiseRange input.availableActions = some (lo, hi) ∧
      sa = "raise" ∧ ∃ x : ℚ, pair.1 = some (max lo (min hi x)))
    (llm : Option LLMParsed) :
    ((if validateAction (applyLLM (buildDecision sa pair.1) sa pair.2 llm) input
        then applyLLM (buildDecision sa pair.1) sa pair.2 llm
        else safeFallback input).action =
      (if validateAction (applyLLM (buildDecision sa pair.1) sa pair.2 none) input
        then applyLLM (buildDecision sa pair.1) sa pair.2 none
        else safeFallback input).action) ∧
    ((if validateAction (applyLLM (buildDecision sa pair.1) sa pair.2 llm) input
        then applyLLM (buildDecision sa pair.1) sa pair.2 llm
        else safeFallback input).amount ≠
      (if validateAction (applyLLM (buildDecision sa pair.1) sa pair.2 none) input
        then applyLLM (buildDecision sa pair.1) sa pair.2 none
        else safeFallback input).amount →
      (if validateAction (applyLLM (buildDecision sa pair.1) sa pair.2 llm) input
        then applyLLM (buildDecision sa pair.1) sa pair.2 llm
        else safeFallback input).action = "raise" ∧
      ∃ lo hi : ℚ, findRaiseRange input.availableActions = some (lo, hi) ∧
        ∃ z : ℤ,
          (if validateAction (applyLLM (buildDecision sa pair.1) sa pair.2 llm) input
            then applyLLM (buildDecision sa pair.1) sa pair.2 llm
            else safeFallback input).amount = some ((z : ℤ) : ℚ) ∧
          lo ≤ ((z : ℤ) : ℚ) ∧ ((z : ℤ) : ℚ) ≤ hi) := by
  have hnone : applyLLM (buildDecision sa pair.1) sa pair.2 none =
      buildDecision sa pair.1 := rfl
  have hact : (applyLLM (buildDecision sa pair.1) sa pair.2 llm).action =
      (buildDecision sa pair.1).action := applyLLM_action _ _ _ _
  rw [hnone]
  rcases applyLLM_amount (buildDecision sa pair.1) sa pair.2 llm with
    ham | ⟨lo, hi, hsr, z, ham, hz1, hz2⟩
  · have hv : validateAction (applyLLM (buildDecision sa pair.1) sa pair.2 llm) input =
        validateAction (buildDecision sa pair.1) input :=
      validateAction_congr _ _ _ hact ham
    by_cases hval : validateAction (buildDecision sa pair.1) input = true
    · rw [if_pos (by rw [hv]; exact hval), if_pos hval]
      exact ⟨hact, fun hne => absurd ham hne⟩
    · rw [if_neg (by rw [hv]; exact hval), if_neg hval]
      exact ⟨rfl, fun hne => absurd rfl hne⟩
  · obtain ⟨hfr, hsa, x, hts⟩ := hcoup lo hi hsr
    have hd₀eq : buildDecision sa pair.1 =
        ⟨"raise", some (max lo (min hi x)), "sampled", none⟩ := by
      rw [hts, hsa]
      simp [buildDecision]
    have hact₀ : (buildDecision sa pair.1).action = "raise" := by rw [hd₀eq]
    have hv₁ : validateAction (applyLLM (buildDecision sa pair.1) sa pair.2 llm) input =
        true := by
      rw [validateAction_raise_eq _ input lo hi ((z : ℤ) : ℚ) (hact.trans hact₀) ham hfr]
      simp [hz1, hz2]
    have hv₀ : validateAction (buildDecision sa pair.1) input = true := by
      rw [validateAction_raise_eq _ input lo hi (max lo (min hi x)) hact₀
        (by rw [hd₀eq]) hfr]
      have h1 : lo ≤ max lo (min hi x) := le_max_left _ _
      have h2 : max lo (min hi x) ≤ hi := max_le (hz1.trans hz2) (min_le_left _ _)
      simp [h1, h2]
    rw [if_pos hv₁, if_pos hv₀]
    exact ⟨hact, fun _ => ⟨hact.trans hact₀, lo, hi, hfr, z, ham, hz1, hz2⟩⟩

/-- C9: two runs of `decide` that share the same snapshot and random
draws but receive arbitrary different LLM advisory outcomes (including
failure/timeout/unparsable, modelled as `none`) return the same action;
the advisory outcome can change only the raise amount, and then only to
an integer (`Math.round`) inside the already-computed legal
`[min,max]` raise band. -/
theorem decideCore_llm_noninterference (input : AIInput) (pConfig : PersonalityConfig)
    (rS rT rJ : ℚ) (llm : Option LLMParsed) :
    (decideCore input pConfig rS rT rJ llm).action =
      (decideCore input pConfig rS rT rJ none).action ∧
    ((decideCore input pConfig rS rT rJ llm).amount ≠
        (decideCore input pConfig rS rT rJ none).amount →
      (decideCore input pConfig rS rT rJ llm).action = "raise" ∧
      ∃ lo hi : ℚ, findRaiseRange input.availableActions = some (lo, hi) ∧
        ∃ z : ℤ, (decideCore input pConfig rS rT rJ llm).amount = some ((z : ℤ) : ℚ) ∧
          lo ≤ ((z : ℤ) : ℚ) ∧ ((z : ℤ) : ℚ) ≤ hi) := by
  have h := decideAux_spec input
    (sampleAction (computeActionMix input (computeQuality input) pConfig) rS)
    (if sampleAction (computeActionMix input (computeQuality input) pConfig) rS = "raise" ∧
        (findRaiseRange input.availableActions).isSome then
      (computeRaiseSizing input pConfig (computeQuality input) rT rJ,
        findRaiseRange input.availableActions)
    else (none, none))
    (by
      intro lo hi h2
      by_cases hc : sampleAction (computeActionMix input (computeQuality input) pConfig) rS =
          "raise" ∧ (findRaiseRange input.availableActions).isSome
      · rw [if_pos hc] at h2
        simp only [] at h2
        refine ⟨h2, hc.1, rawSizingAmount input pConfig rT rJ, ?_⟩
        rw [if_pos hc]
        simp only [computeRaiseSizing, h2]
      · rw [if_neg hc] at h2
        simp at h2)
    llm
  exact h

/-! ### C4: side-pot construction, merging and conservation -/

theorem mem_insertAscInt {y x : ℤ} : ∀ {l : List ℤ}, y ∈ insertAscInt x l ↔ y = x ∨ y ∈ l := by
  intro l
  induction l with
  | nil => simp [insertAscInt]
  | cons a t ih =>
    simp only [insertAscInt]
    by_cases h : x ≤ a
    · rw [if_pos h]
      simp [List.mem_cons]
    · rw [if_neg h]
      simp only [List.mem_cons, ih]
      tauto

theorem mem_sortAscInt {y : ℤ} : ∀ {l : List ℤ}, y ∈ sortAscInt l ↔ y ∈ l := by
  intro l
  induction l with
  | nil => simp [sortAscInt]
  | cons a t ih =>
    show y ∈ insertAscInt a (sortAscInt t) ↔ _
    rw [mem_insertAscInt]
    simp [ih]

theorem foldl_max_bounds (l : List ℤ) (prev : ℤ) :
    prev ≤ l.foldl max prev ∧ ∀ x ∈ l, x ≤ l.foldl max prev := by
  induction l generalizing prev with
  | nil => exact ⟨le_refl _, fun x hx => absurd hx (List.not_mem_nil x)⟩
  | cons a t ih =>
    simp only [List.foldl_cons]
    obtain ⟨h1, h2⟩ := ih (max prev a)
    refine ⟨le_trans (le_max_left _ _) h1, ?_⟩
    intro x hx
    rcases List.mem_cons.mp hx with rfl | hxt
    · exact le_trans (le_max_right _ _) h1
    · exact h2 x hxt

theorem sum_map_add_pair {α : Type} (l : List α) (f g : α → ℤ) :
    (l.map f).sum + (l.map g).sum = (l.map (fun x => f x + g x)).sum := by
  induction l with
  | nil => simp
  | cons a t ih =>
    simp only [List.map_cons, List.sum_cons]
    rw [← ih]
    ring

theorem sum_map_filter_of_zero {α : Type} (l : List α) (p : α → Bool) (f : α → ℤ)
    (h : ∀ x ∈ l, p x = false → f x = 0) :
    ((l.filter p).map f).sum = (l.map f).sum := by
  induction l with
  | nil => rfl
  | cons a t ih =>
    have iht := ih (fun x hx hp => h x (List.mem_cons_of_mem a hx) hp)
    by_cases hp : p a
    · simp [List.filter_cons, hp, iht]
    · have h0 := h a (List.mem_cons_self a t) (by simpa using hp)
      simp [List.filter_cons, hp, iht, h0]

theorem buildPots_slice_sum (t : List (Nat × Player)) (prev level : ℤ) (h : prev < level) :
    ((t.filter (fun ip => decide (prev < ip.2.totalBet))).map
        (fun ip => min (level - prev) (ip.2.totalBet - prev))).sum =
      (t.map (fun ip => min ip.2.totalBet level - min ip.2.totalBet prev)).sum := by
  induction t with
  | nil => rfl
  | cons a t ih =>
    by_cases hc : prev < a.2.totalBet
    · have hfc : (a :: t).filter (fun ip => decide (prev < ip.2.totalBet)) =
          a :: t.filter (fun ip => decide (prev < ip.2.totalBet)) := by
        simp [List.filter_cons, hc]
      rw [hfc]
      simp only [List.map_cons, List.sum_cons, ih]
      have he : min (level - prev) (a.2.totalBet - prev) =
          min a.2.totalBet level - min a.2.totalBet prev := by omega
      rw [he]
    · have hfc : (a :: t).filter (fun ip => decide (prev < ip.2.totalBet)) =
          t.filter (fun ip => decide (prev < ip.2.totalBet)) := by
        simp [List.filter_cons, hc]
      rw [hfc]
      simp only [List.map_cons, List.sum_cons, ih]
      have he : min a.2.totalBet level - min a.2.totalBet prev = 0 := by omega
      rw [he]
      omega

theorem buildPots_slice_nonneg (t : List (Nat × Player)) (prev level : ℤ) (h : prev < level) :
    0 ≤ ((t.filter (fun ip => decide (prev < ip.2.totalBet))).map
        (fun ip => min (level - prev) (ip.2.totalBet - prev))).sum := by
  apply List.sum_nonneg
  intro x hx
  obtain ⟨ip, hip, rfl⟩ := List.mem_map.mp hx
  have hmem := (List.mem_filter.mp hip).2
  simp only [decide_eq_true_eq] at hmem
  omega

theorem buildPots_sum (pih : List (Nat × Player)) (levels : List ℤ) (prev : ℤ) :
    ((buildPots pih levels prev).map SidePot.amount).sum =
      (pih.map (fun ip =>
        min ip.2.totalBet (levels.foldl max prev) - min ip.2.totalBet prev)).sum := by
  induction levels generalizing prev with
  | nil => simp [buildPots]
  | cons level rest ih =>
    simp only [buildPots, List.foldl_cons]
    by_cases hd : level - prev ≤ 0
    · rw [if_pos hd]
      have hmax : max prev level = prev := by omega
      rw [hmax, ih prev]
    · rw [if_neg hd]
      have hmax : max prev level = level := by omega
      rw [hmax]
      have hsl := buildPots_slice_sum pih prev level (by omega)
      have hadd := sum_map_add_pair pih
        (fun ip => min ip.2.totalBet level - min ip.2.totalBet prev)
        (fun ip => min ip.2.totalBet (rest.foldl max level) - min ip.2.totalBet level)
      have hcong : (pih.map (fun ip =>
          (min ip.2.totalBet level - min ip.2.totalBet prev) +
          (min ip.2.totalBet (rest.foldl max level) - min ip.2.totalBet level))).sum =
          (pih.map (fun ip =>
            min ip.2.totalBet (rest.foldl max level) - min ip.2.totalBet prev)).sum := by
        congr 1
        apply List.map_congr_left
        intro ip _
        ring
      by_cases ha : 0 < ((pih.filter (fun ip => decide (prev < ip.2.totalBet))).map
          (fun ip => min (level - prev) (ip.2.totalBet - prev))).sum
      · rw [if_pos ha]
        simp only [List.map_append, List.map_cons, List.map_nil, List.sum_append,
          List.sum_cons, List.sum_nil]
        rw [ih level]
        omega
      · rw [if_neg ha]
        simp only [List.nil_append]
        rw [ih level]
        have hnng := buildPots_slice_nonneg pih prev level (by omega)
        omega

theorem addMergePot_none (ps : List Player) (acc : List SidePot) (pot : SidePot)
    (h : acc.findIdx? (fun mp => potKey ps mp == potKey ps pot) = none) :
    addMergePot ps acc pot = acc ++ [pot] := by
  unfold addMergePot
  rw [h]

theorem addMergePot_some (ps : List Player) (acc : List SidePot) (pot : SidePot) (i : Nat)
    (h : acc.findIdx? (fun mp => potKey ps mp == potKey ps pot) = some i) :
    addMergePot ps acc pot = acc.set i
      { acc.getD i default with amount := (acc.getD i default).amount + pot.amount } := by
  unfold addMergePot
  rw [h]

theorem sum_amount_set : ∀ (acc : List SidePot) (i : Nat) (a : SidePot), i < acc.length →
    ((acc.set i a).map SidePot.amount).sum =
      (acc.map SidePot.amount).sum - (acc.getD i default).amount + a.amount := by
  intro acc
  induction acc with
  | nil =>
    intro i a h
    simp at h
  | cons x t ih =>
    intro i a hlt
    cases i with
    | zero =>
      rw [List.set_cons_zero]
      simp only [List.map_cons, List.sum_cons, List.getD_cons_zero]
      ring
    | succ n =>
      rw [List.set_cons_succ]
      simp only [List.map_cons, List.sum_cons, List.getD_cons_succ]
      rw [ih n a (by simpa using hlt)]
      ring

theorem addMergePot_sum (ps : List Player) (acc : List SidePot) (pot : SidePot) :
    ((addMergePot ps acc pot).map SidePot.amount).sum =
      (acc.map SidePot.amount).sum + pot.amount := by
  cases hf : acc.findIdx? (fun mp => potKey ps mp == potKey ps pot) with
  | none =>
    rw [addMergePot_none ps acc pot hf]
    simp
  | some i =>
    have hlt : i < acc.length := by
      rw [List.findIdx?_eq_some_iff_getElem] at hf
      exact hf.1
    rw [addMergePot_some ps acc pot i hf, sum_amount_set acc i _ hlt]
    dsimp only
    ring

theorem mergePots_sum_aux (ps : List Player) : ∀ (pots acc : List SidePot),
    ((pots.foldl (addMergePot ps) acc).map SidePot.amount).sum =
      (acc.map SidePot.amount).sum + (pots.map SidePot.amount).sum := by
  intro pots
  induction pots with
  | nil =>
    intro acc
    simp
  | cons pot t ih =>
    intro acc
    simp only [List.foldl_cons, List.map_cons, List.sum_cons]
    rw [ih (addMergePot ps acc pot), addMergePot_sum ps acc pot]
    ring

theorem mergePots_sum (ps : List Player) (pots : List SidePot) :
    ((mergePots ps pots).map SidePot.amount).sum = (pots.map SidePot.amount).sum := by
  unfold mergePots
  rw [mergePots_sum_aux ps pots []]
  simp

theorem pairwise_set {α : Type} [Inhabited α] {R : α → α → Prop} :
    ∀ (l : List α) (i : Nat) (a : α), i < l.length → l.Pairwise R →
      (∀ b, R (l.getD i default) b → R a b) →
      (∀ b, R b (l.getD i default) → R b a) →
      (l.set i a).Pairwise R := by
  intro l
  induction l with
  | nil =>
    intro i a h
    simp at h
  | cons x t ih =>
    intro i a hlt hp h1 h2
    cases i with
    | zero =>
      rw [List.set_cons_zero]
      rw [List.pairwise_cons] at hp ⊢
      exact ⟨fun b hb => h1 b (hp.1 b hb), hp.2⟩
    | succ n =>
      rw [List.set_cons_succ]
      rw [List.pairwise_cons] at hp ⊢
      have hn : n < t.length := by simpa using hlt
      refine ⟨?_, ih n a hn hp.2 (fun b hb => h1 b hb) (fun b hb => h2 b hb)⟩
      intro b hb
      rcases List.mem_or_eq_of_mem_set hb with hbt | rfl
      · exact hp.1 b hbt
      · have hmem : t.getD n default ∈ t := by
          rw [List.getD_eq_getElem t default hn]
          exact List.getElem_mem hn
        exact h2 x (hp.1 _ hmem)

theorem addMergePot_pairwise (ps : List Player) (acc : List SidePot) (pot : SidePot)
    (h : acc.Pairwise fun a b => potKey ps a ≠ potKey ps b) :
    (addMergePot ps acc pot).Pairwise (fun a b => potKey ps a ≠ potKey ps b) := by
  cases hf : acc.findIdx? (fun mp => potKey ps mp == potKey ps pot) with
  | none =>
    rw [addMergePot_none ps acc pot hf]
    rw [List.pairwise_append]
    refine ⟨h, List.pairwise_singleton _ _, ?_⟩
    intro a ha b hb
    rw [List.mem_singleton] at hb
    subst hb
    have hne := List.findIdx?_eq_none_iff.mp hf a ha
    simpa using hne
  | some i =>
    have hlt : i < acc.length := by
      rw [List.findIdx?_eq_some_iff_getElem] at hf
      exact hf.1
    rw [addMergePot_some ps acc pot i hf]
    apply pairwise_set acc i _ hlt h
    · intro b hb
      exact hb
    · intro b hb
      exact hb

theorem mergePots_pairwise_aux (ps : List Player) : ∀ (pots acc : List SidePot),
    acc.Pairwise (fun a b => potKey ps a ≠ potKey ps b) →
    (pots.foldl (addMergePot ps) acc).Pairwise (fun a b => potKey ps a ≠ potKey ps b) := by
  intro pots
  induction pots with
  | nil =>
    intro acc h
    exact h
  | cons pot t ih =>
    intro acc h
    exact ih _ (addMergePot_pairwise ps acc pot h)

theorem mergePots_pairwise (ps : List Player) (pots : List SidePot) :
    (mergePots ps pots).Pairwise (fun a b => potKey ps a ≠ potKey ps b) := by
  unfold mergePots
  exact mergePots_pairwise_aux ps pots [] List.Pairwise.nil

/-- C4: at showdown, whenever the pot equals the sum of all seats'
`totalBet`, contributions are nonnegative, and sitting-out seats have
contributed nothing, `_calculateSidePots` (which slices the pot at the
ascending distinct `totalBet` levels, restricting eligibility to the
non-folded seats at each level with fallback to all contributors, and
merges slices with an identical eligible-id key) returns pots whose
amounts sum exactly to the pot, and whose eligible-id keys are pairwise
distinct (identical eligible sets have been merged into one pot). -/
theorem calculateSidePots_conserves_and_merges (s : GameState)
    (hpot : s.pot = (s.players.map Player.totalBet).sum)
    (hnn : ∀ p ∈ s.players, 0 ≤ p.totalBet)
    (hso : ∀ p ∈ s.players, p.sittingOut = true → p.totalBet = 0) :
    ((calculateSidePots s).map SidePot.amount).sum = s.pot ∧
    (calculateSidePots s).Pairwise
      (fun a b => potKey s.players a ≠ potKey s.players b) := by
  simp only [calculateSidePots]
  set pih := s.players.enum.filter
    (fun ip => !ip.2.sittingOut && decide (0 < ip.2.totalBet)) with hpih
  by_cases h0 : pih.length = 0
  · rw [if_pos h0]
    exact ⟨by simp, List.pairwise_singleton _ _⟩
  · rw [if_neg h0]
    set levels := sortAscInt (pih.map (fun ip => ip.2.totalBet)).dedup with hlev
    have hMb : ∀ ip ∈ pih, ip.2.totalBet ≤ levels.foldl max 0 := by
      intro ip hip
      apply (foldl_max_bounds levels 0).2
      rw [hlev]
      exact mem_sortAscInt.mpr (List.mem_dedup.mpr (List.mem_map_of_mem _ hip))
    have hpos : ∀ ip ∈ pih, 0 < ip.2.totalBet := by
      intro ip hip
      rw [hpih] at hip
      have hpred := (List.mem_filter.mp hip).2
      simp at hpred
      exact hpred.2
    have hbs := buildPots_sum pih levels 0
    have hterm : pih.map (fun ip =>
        min ip.2.totalBet (levels.foldl max 0) - min ip.2.totalBet 0) =
        pih.map (fun ip => ip.2.totalBet) := by
      apply List.map_congr_left
      intro ip hip
      have h1 := hMb ip hip
      have h2 := hpos ip hip
      omega
    have hfsum : (pih.map (fun ip => ip.2.totalBet)).sum =
        (s.players.enum.map (fun ip => ip.2.totalBet)).sum := by
      rw [hpih]
      apply sum_map_filter_of_zero
      intro ip hip hp
      have hmem : ip.2 ∈ s.players := by
        have hx := List.mem_map_of_mem Prod.snd hip
        rwa [List.enum_map_snd] at hx
      by_cases hsit : ip.2.sittingOut
      · exact hso _ hmem hsit
      · have h1 := hnn _ hmem
        simp [hsit] at hp
        omega
    have hesum : (s.players.enum.map (fun ip => ip.2.totalBet)).sum =
        (s.players.map Player.totalBet).sum := by
      rw [show (fun ip : Nat × Player => ip.2.totalBet) = Player.totalBet ∘ Prod.snd from rfl,
        ← List.map_map, List.enum_map_snd]
    have hmsum := mergePots_sum s.players (buildPots pih levels 0)
    by_cases hm : 0 < (mergePots s.players (buildPots pih levels 0)).length
    · rw [if_pos hm]
      refine ⟨?_, mergePots_pairwise s.players _⟩
      rw [hmsum, hbs, hterm, hfsum, hesum, ← hpot]
    · rw [if_neg hm]
      exact ⟨by simp, List.pairwise_singleton _ _⟩

theorem calculateSidePots_conserves_and_merges_witness :
    (c4state.pot = (c4state.players.map Player.totalBet).sum ∧
      (∀ p ∈ c4state.players, 0 ≤ p.totalBet) ∧
      (∀ p ∈ c4state.players, p.sittingOut = true → p.totalBet = 0)) ∧
    (((calculateSidePots c4state).map SidePot.amount).sum = c4state.pot ∧
      (calculateSidePots c4state).Pairwise
        (fun a b => potKey c4state.players a ≠ potKey c4state.players b)) :=
  ⟨⟨by decide, by decide, by decide⟩,
    calculateSidePots_conserves_and_merges c4state (by decide) (by decide) (by decide)⟩

/-! ### C1: the pot/contribution invariant -/

theorem sum_map_set {α : Type} [Inhabited α] (f : α → ℤ) :
    ∀ (l : List α) (i : Nat) (a : α), i < l.length →
      ((l.set i a).map f).sum = (l.map f).sum - f (l.getD i default) + f a := by
  intro l
  induction l with
  | nil =>
    intro i a h
    simp at h
  | cons x t ih =>
    intro i a hlt
    cases i with
    | zero =>
      rw [List.set_cons_zero]
      simp only [List.map_cons, List.sum_cons, List.getD_cons_zero]
      ring
    | succ n =>
      rw [List.set_cons_succ]
      simp only [List.map_cons, List.sum_cons, List.getD_cons_succ]
      rw [ih n a (by simpa using hlt)]
      ring

theorem sum_set_preserve {α : Type} [Inhabited α] (f : α → ℤ) (l : List α) (i : Nat) (a : α)
    (h : f a = f (l.getD i default)) : ((l.set i a).map f).sum = (l.map f).sum := by
  by_cases hlt : i < l.length
  · rw [sum_map_set f l i a hlt, h]
    ring
  · rw [List.set_eq_of_length_le (by omega)]

theorem sum_map_of_comp {α β : Type} (l : List α) (g : α → β) (f : β → ℤ) (f' : α → ℤ)
    (h : ∀ x ∈ l, f (g x) = f' x) : ((l.map g).map f).sum = (l.map f').sum := by
  rw [List.map_map]
  exact congrArg List.sum (List.map_congr_left h)

theorem enum_snd_totalBet_sum (ps : List Player) :
    (ps.enum.map (fun ip => ip.2.totalBet)).sum = (ps.map Player.totalBet).sum := by
  rw [show (fun ip : Nat × Player => ip.2.totalBet) = Player.totalBet ∘ Prod.snd from rfl,
    ← List.map_map, List.enum_map_snd]

theorem clearActed_totalBet_sum (ps : List Player) (keep : Int) :
    sumTotalBet (clearActedExcept ps keep) = sumTotalBet ps := by
  unfold clearActedExcept sumTotalBet
  rw [sum_map_of_comp ps.enum _ Player.totalBet (fun ip => ip.2.totalBet) ?_]
  · exact enum_snd_totalBet_sum ps
  · intro ip _
    dsimp only
    split <;> rfl

theorem one_filter_index (p : Player → Bool) :
    ∀ (l : List Player), 1 ≤ (l.filter p).length →
      ∃ i : Nat, i < l.length ∧ p (l.getD i default) = true := by
  intro l
  induction l with
  | nil =>
    intro h
    simp at h
  | cons a t ih =>
    intro h
    by_cases hp : p a = true
    · exact ⟨0, by simp, by simpa using hp⟩
    · have h' : 1 ≤ (t.filter p).length := by
        have : (a :: t).filter p = t.filter p := by simp [List.filter_cons, hp]
        rwa [this] at h
      obtain ⟨i, hi, hpi⟩ := ih h'
      exact ⟨i + 1, by simpa using Nat.succ_lt_succ hi, by simpa using hpi⟩

theorem two_filter_indices (p : Player → Bool) :
    ∀ (l : List Player), 2 ≤ (l.filter p).length →
      ∃ i j : Nat, i ≠ j ∧ i < l.length ∧ j < l.length ∧
        p (l.getD i default) = true ∧ p (l.getD j default) = true := by
  intro l
  induction l with
  | nil =>
    intro h
    simp at h
  | cons a t ih =>
    intro h
    by_cases hp : p a = true
    · have h' : 1 ≤ (t.filter p).length := by
        have he : (a :: t).filter p = a :: t.filter p := by simp [List.filter_cons, hp]
        rw [he] at h
        simpa using h
      obtain ⟨i, hi, hpi⟩ := one_filter_index p t h'
      exact ⟨0, i + 1, by omega, by simp, by simpa using Nat.succ_lt_succ hi,
        by simpa using hp, by simpa using hpi⟩
    · have h' : 2 ≤ (t.filter p).length := by
        have he : (a :: t).filter p = t.filter p := by simp [List.filter_cons, hp]
        rwa [he] at h
      obtain ⟨i, j, hij, hi, hj, hpi, hpj⟩ := ih h'
      exact ⟨i + 1, j + 1, by omega, by simpa using Nat.succ_lt_succ hi,
        by simpa using Nat.succ_lt_succ hj, by simpa using hpi, by simpa using hpj⟩

theorem emodEqOfLt {a b : ℤ} (h0 : 0 ≤ a) (h1 : a < b) : a.emod b = a :=
  Int.emod_eq_of_lt h0 h1

theorem emodAddEmod (m n k : ℤ) : ((m.emod n) + k).emod n = (m + k).emod n :=
  Int.emod_add_emod m n k

theorem addMulEmodSelfLeft (a b c : ℤ) : (a + b * c).emod b = a.emod b :=
  Int.add_mul_emod_self_left a b c

theorem emodEqEmodIff {a b n : ℤ} : a.emod n = b.emod n ↔ (a - b).emod n = 0 :=
  Int.emod_eq_emod_iff_emod_sub_eq_zero

theorem emodNonneg (a : ℤ) {b : ℤ} (h : b ≠ 0) : 0 ≤ a.emod b :=
  Int.emod_nonneg a h

theorem emodLtOfPos (a : ℤ) {b : ℤ} (h : 0 < b) : a.emod b < b :=
  Int.emod_lt_of_pos a h

theorem dvdOfEmodEqZero {a b : ℤ} (h : a.emod b = 0) : b ∣ a :=
  Int.dvd_of_emod_eq_zero h

theorem searchGo_spec (pred : Player → Bool) (ps : List Player) (fromIdx : Int) :
    ∀ (fuel : Nat) (idx : Int) (k : Nat), 0 ≤ idx → idx < (ps.length : Int) → k < fuel →
      pred (getPlayer ps ((idx + (k : Int)).emod (ps.length : Int))) = true →
      ∃ j : Nat, j ≤ k ∧
        searchGo pred ps fromIdx fuel idx = (idx + (j : Int)).emod (ps.length : Int) ∧
        pred (getPlayer ps ((idx + (j : Int)).emod (ps.length : Int))) = true := by
  intro fuel
  induction fuel with
  | zero =>
    intro idx k _ _ hk
    omega
  | succ fuel ih =>
    intro idx k h0 hn hk hpred
    have hunfold : searchGo pred ps fromIdx (fuel + 1) idx =
        if pred (getPlayer ps idx) then idx
        else searchGo pred ps fromIdx fuel ((idx + 1).emod (ps.length : Int)) := rfl
    by_cases hp : pred (getPlayer ps idx) = true
    · refine ⟨0, Nat.zero_le k, ?_, ?_⟩
      · rw [hunfold, if_pos hp, Nat.cast_zero, add_zero, emodEqOfLt h0 hn]
      · rw [Nat.cast_zero, add_zero, emodEqOfLt h0 hn]
        exact hp
    · have hk0 : k ≠ 0 := by
        intro hke
        subst hke
        rw [Nat.cast_zero, add_zero, emodEqOfLt h0 hn] at hpred
        exact hp hpred
      obtain ⟨k', rfl⟩ : ∃ k', k = k' + 1 := ⟨k - 1, by omega⟩
      have hnz : (ps.length : Int) ≠ 0 := by omega
      have hnpos : (0 : Int) < ps.length := by omega
      have hmod : ∀ m : Nat, ((idx + 1).emod (ps.length : Int) + (m : Int)).emod (ps.length : Int) =
          (idx + ((m + 1 : Nat) : Int)).emod (ps.length : Int) := by
        intro m
        rw [emodAddEmod]
        congr 1
        push_cast
        ring
      have h0' : 0 ≤ (idx + 1).emod (ps.length : Int) := emodNonneg _ hnz
      have hn' : (idx + 1).emod (ps.length : Int) < ps.length := emodLtOfPos _ hnpos
      have hpred' : pred (getPlayer ps
          (((idx + 1).emod (ps.length : Int) + (k' : Int)).emod (ps.length : Int))) = true := by
        rw [hmod k']
        exact hpred
      obtain ⟨j, hj, heq, hpj⟩ := ih ((idx + 1).emod (ps.length : Int)) k' h0' hn'
        (by omega) hpred'
      refine ⟨j + 1, by omega, ?_, ?_⟩
      · rw [hunfold, if_neg hp, heq, hmod j]
      · rw [← hmod j]
        exact hpj

theorem exists_emod_distance (n idx t : ℤ) (hn : 0 < n) (h0 : 0 ≤ idx) (h1 : idx < n)
    (ht0 : 0 ≤ t) (ht1 : t < n) : ∃ k : Nat, (k : ℤ) < n ∧ (idx + (k : ℤ)).emod n = t := by
  by_cases h : idx ≤ t
  · refine ⟨(t - idx).toNat, by omega, ?_⟩
    have he : idx + (((t - idx).toNat : ℤ)) = t := by omega
    rw [he, emodEqOfLt ht0 ht1]
  · refine ⟨(t + n - idx).toNat, by omega, ?_⟩
    have he : idx + (((t + n - idx).toNat : ℤ)) = t + n * 1 := by omega
    rw [he, addMulEmodSelfLeft, emodEqOfLt ht0 ht1]

theorem searchFrom_found (pred : Player → Bool) (ps : List Player) (fromIdx : Int)
    (t : Nat) (ht : t < ps.length) (hp : pred (ps.getD t default) = true) :
    0 ≤ searchFrom pred ps fromIdx ∧ searchFrom pred ps fromIdx < (ps.length : Int) ∧
    pred (getPlayer ps (searchFrom pred ps fromIdx)) = true := by
  have hnpos : (0 : Int) < ps.length := by omega
  have hnz : (ps.length : Int) ≠ 0 := by omega
  unfold searchFrom
  have h0 : 0 ≤ (fromIdx + 1).emod (ps.length : Int) := emodNonneg _ hnz
  have h1 : (fromIdx + 1).emod (ps.length : Int) < ps.length := emodLtOfPos _ hnpos
  obtain ⟨k, hk, hkt⟩ := exists_emod_distance (ps.length : Int)
    ((fromIdx + 1).emod (ps.length : Int)) (t : ℤ) hnpos h0 h1 (by omega)
    (by exact_mod_cast ht)
  have hpred : pred (getPlayer ps
      (((fromIdx + 1).emod (ps.length : Int) + (k : Int)).emod (ps.length : Int))) = true := by
    rw [hkt]
    show pred (ps.getD ((t : ℤ)).toNat default) = true
    rw [Int.toNat_natCast]
    exact hp
  obtain ⟨j, hj, heq, hpj⟩ := searchGo_spec pred ps fromIdx ps.length
    ((fromIdx + 1).emod (ps.length : Int)) k h0 h1 (by omega) hpred
  rw [heq]
  exact ⟨emodNonneg _ hnz, emodLtOfPos _ hnpos, hpj⟩

theorem searchFrom_found_ne (pred : Player → Bool) (ps : List Player) (a : Int)
    (ha0 : 0 ≤ a) (ha1 : a < (ps.length : Int))
    (t : Nat) (ht : t < ps.length) (hp : pred (ps.getD t default) = true)
    (hta : (t : Int) ≠ a) :
    0 ≤ searchFrom pred ps a ∧ searchFrom pred ps a < (ps.length : Int) ∧
    pred (getPlayer ps (searchFrom pred ps a)) = true ∧ searchFrom pred ps a ≠ a := by
  have hnpos : (0 : Int) < ps.length := by omega
  have hnz : (ps.length : Int) ≠ 0 := by omega
  unfold searchFrom
  have h0 : 0 ≤ (a + 1).emod (ps.length : Int) := emodNonneg _ hnz
  have h1 : (a + 1).emod (ps.length : Int) < ps.length := emodLtOfPos _ hnpos
  obtain ⟨k, hk, hkt⟩ := exists_emod_distance (ps.length : Int)
    ((a + 1).emod (ps.length : Int)) (t : ℤ) hnpos h0 h1 (by omega) (by exact_mod_cast ht)
  have hpred : pred (getPlayer ps
      (((a + 1).emod (ps.length : Int) + (k : Int)).emod (ps.length : Int))) = true := by
    rw [hkt]
    show pred (ps.getD ((t : ℤ)).toNat default) = true
    rw [Int.toNat_natCast]
    exact hp
  obtain ⟨j, hj, heq, hpj⟩ := searchGo_spec pred ps a ps.length
    ((a + 1).emod (ps.length : Int)) k h0 h1 (by omega) hpred
  have hshift : ∀ m : Nat, ((a + 1).emod (ps.length : Int) + (m : Int)).emod (ps.length : Int) =
      (a + 1 + (m : Int)).emod (ps.length : Int) := by
    intro m
    rw [emodAddEmod]
  have hkn : k ≠ ps.length - 1 ∨ ps.length = 0 := by
    by_cases hke : k = ps.length - 1
    · exfalso
      apply hta
      rw [← hkt, hshift k, hke]
      have he : a + 1 + ((ps.length - 1 : Nat) : Int) = a + (ps.length : Int) * 1 := by
        push_cast [Nat.cast_sub (by omega : 1 ≤ ps.length)]
        ring
      rw [he, addMulEmodSelfLeft, emodEqOfLt ha0 ha1]
    · exact Or.inl hke
  have hkn' : k < ps.length - 1 := by omega
  have hne : (a + 1 + (j : Int)).emod (ps.length : Int) ≠ a := by
    intro habs
    have hmm : (a + 1 + (j : Int)).emod (ps.length : Int) = a.emod (ps.length : Int) := by
      rw [habs, emodEqOfLt ha0 ha1]
    have hz : (a + 1 + (j : Int) - a).emod (ps.length : Int) = 0 :=
      emodEqEmodIff.mp hmm
    have hdvd : (ps.length : Int) ∣ (1 + (j : Int)) := by
      apply dvdOfEmodEqZero
      have he : a + 1 + (j : Int) - a = 1 + (j : Int) := by ring
      rwa [he] at hz
    have hle := Int.le_of_dvd (by omega) hdvd
    omega
  rw [heq, hshift j]
  exact ⟨emodNonneg _ hnz, emodLtOfPos _ hnpos, by rw [← hshift j]; exact hpj,
    hne⟩

theorem findIdxPGo_spec (pred : Nat → Player → Bool) :
    ∀ (l : List Player) (i : Nat),
      (findIdxPGo pred l i = -1 ∧ ∀ j, j < l.length → pred (i + j) (l.getD j default) = false) ∨
      ∃ j : Nat, j < l.length ∧ findIdxPGo pred l i = ((i + j : Nat) : Int) ∧
        pred (i + j) (l.getD j default) = true := by
  intro l
  induction l with
  | nil =>
    intro i
    exact Or.inl ⟨rfl, by intro j hj; simp at hj⟩
  | cons p ps ih =>
    intro i
    have hunfold : findIdxPGo pred (p :: ps) i =
        if pred i p then ((i : Nat) : Int) else findIdxPGo pred ps (i + 1) := rfl
    by_cases hp : pred i p = true
    · refine Or.inr ⟨0, by simp, ?_, by simpa using hp⟩
      rw [hunfold, if_pos hp]
      norm_num
    · rcases ih (i + 1) with ⟨hnone, hall⟩ | ⟨j, hj, heq, hpj⟩
      · refine Or.inl ⟨by rw [hunfold, if_neg hp]; exact hnone, ?_⟩
        intro j hj
        cases j with
        | zero =>
          simpa using (by simpa using hp : ¬pred (i + 0) p = true)
        | succ j' =>
          have := hall j' (by simpa using hj)
          rw [List.getD_cons_succ]
          have harg : i + (j' + 1) = i + 1 + j' := by omega
          rw [harg]
          exact this
      · refine Or.inr ⟨j + 1, by simpa using Nat.succ_lt_succ hj, ?_, ?_⟩
        · rw [hunfold, if_neg hp, heq]
          exact congrArg _ (by omega)
        · rw [List.getD_cons_succ]
          have harg : i + (j + 1) = i + 1 + j := by omega
          rw [harg]
          exact hpj

theorem findIdxP_found (pred : Nat → Player → Bool) (ps : List Player)
    (t : Nat) (ht : t < ps.length) (hp : pred t (ps.getD t default) = true) :
    0 ≤ findIdxP pred ps ∧ findIdxP pred ps < (ps.length : Int) ∧
    pred (findIdxP pred ps).toNat (ps.getD (findIdxP pred ps).toNat default) = true := by
  rcases findIdxPGo_spec pred ps 0 with ⟨_, hall⟩ | ⟨j, hj, heq, hpj⟩
  · have := hall t ht
    rw [Nat.zero_add] at this
    rw [this] at hp
    exact absurd hp (by simp)
  · unfold findIdxP
    rw [heq]
    refine ⟨by positivity, by push_cast; omega, ?_⟩
    rw [Int.toNat_natCast]
    rw [Nat.zero_add] at hpj ⊢
    exact hpj

theorem findIdxP_ne_neg_one (pred : Nat → Player → Bool) (ps : List Player)
    (h : findIdxP pred ps ≠ -1) :
    0 ≤ findIdxP pred ps ∧ findIdxP pred ps < (ps.length : Int) := by
  rcases findIdxPGo_spec pred ps 0 with ⟨h1, _⟩ | ⟨j, hj, heq, _⟩
  · exact absurd h1 h
  · unfold findIdxP
    rw [heq]
    exact ⟨by positivity, by push_cast; omega⟩

theorem totalBet_allInGuard (q : Player) :
    (if q.chips = 0 then { q with allIn := true } else q).totalBet = q.totalBet := by
  split <;> rfl

theorem postBlind_delta (s : GameState) (i : Int) (a : ℤ) (hi : i.toNat < s.players.length) :
    ∃ X : ℤ, (postBlind s i a).pot = s.pot + X ∧
      sumTotalBet (postBlind s i a).players =
        sumTotalBet s.players - (s.players.getD i.toNat default).totalBet + X := by
  refine ⟨min a (getPlayer s.players i).chips, rfl, ?_⟩
  simp only [postBlind, getPlayer, setPlayer]
  try dsimp only
  unfold sumTotalBet
  rw [sum_map_set Player.totalBet s.players i.toNat _ hi]
  congr 1
  split <;> rfl

theorem postBlind_getD_ne (s : GameState) (i : Int) (a : ℤ) (j : Nat) (hj : j ≠ i.toNat) :
    (postBlind s i a).players.getD j default = s.players.getD j default := by
  show (s.players.set i.toNat _).getD j default = _
  exact getD_set_ne s.players i.toNat _ j hj

theorem postBlind_length (s : GameState) (i : Int) (a : ℤ) :
    (postBlind s i a).players.length = s.players.length := by
  show (s.players.set i.toNat _).length = _
  simp

theorem markSB_pot (s : GameState) (i : Int) : (markSB s i).pot = s.pot := rfl

theorem markBB_pot (s : GameState) (i : Int) : (markBB s i).pot = s.pot := rfl

theorem markSB_sum (s : GameState) (i : Int) :
    sumTotalBet (markSB s i).players = sumTotalBet s.players := by
  show sumTotalBet (s.players.set i.toNat _) = _
  exact sum_set_preserve Player.totalBet s.players i.toNat _ rfl

theorem markBB_sum (s : GameState) (i : Int) :
    sumTotalBet (markBB s i).players = sumTotalBet s.players := by
  show sumTotalBet (s.players.set i.toNat _) = _
  exact sum_set_preserve Player.totalBet s.players i.toNat _ rfl

theorem dealHands_totalBet : ∀ (ps : List Player) (deck : List Card),
    (dealHands ps deck).1.map Player.totalBet = ps.map Player.totalBet := by
  intro ps
  induction ps with
  | nil =>
    intro deck
    rfl
  | cons p t ih =>
    intro deck
    by_cases h : p.sittingOut
    · have hunfold : dealHands (p :: t) deck =
          (p :: (dealHands t deck).1, (dealHands t deck).2) := by
        show (if p.sittingOut then _ else _) = _
        rw [if_pos h]
      rw [hunfold]
      simp only [List.map_cons]
      rw [ih deck]
    · have hunfold : dealHands (p :: t) deck =
          ({ p with hand := deck.take 2 } :: (dealHands t (deck.drop 2)).1,
            (dealHands t (deck.drop 2)).2) := by
        show (if p.sittingOut then _ else _) = _
        rw [if_neg h]
      rw [hunfold]
      simp only [List.map_cons]
      rw [ih (deck.drop 2)]

theorem advanceDealer_players (s : GameState) : (advanceDealer s).players = s.players := by
  unfold advanceDealer
  split_ifs <;> rfl

theorem advanceDealer_pot (s : GameState) : (advanceDealer s).pot = s.pot := by
  unfold advanceDealer
  split_ifs <;> rfl

theorem reset_all_zero (l : List Player) :
    ∀ p ∈ l.map resetPlayerForHand, p.totalBet = 0 := by
  intro p hp
  obtain ⟨q, _, rfl⟩ := List.mem_map.mp hp
  rfl

theorem reset_all_unfolded (l : List Player) :
    ∀ p ∈ l.map resetPlayerForHand, p.folded = false := by
  intro p hp
  obtain ⟨q, _, rfl⟩ := List.mem_map.mp hp
  rfl

theorem reset_filter_length (l : List Player) :
    ((l.map resetPlayerForHand).filter (fun p => !p.sittingOut)).length =
      (l.filter (fun p => decide (0 < p.chips) && !p.disconnected)).length := by
  induction l with
  | nil => rfl
  | cons p t ih =>
    simp only [List.map_cons, List.filter_cons]
    have hpe : (!(resetPlayerForHand p).sittingOut) = (decide (0 < p.chips) && !p.disconnected) := by
      show (!(decide (p.chips ≤ 0) || p.disconnected)) = _
      rcases le_or_lt p.chips 0 with hc | hc
      · simp [hc, not_lt.mpr hc]
      · simp [hc, not_le.mpr hc]
    rw [hpe]
    by_cases hb : (decide ((0:ℤ) < p.chips) && !p.disconnected) = true
    · simp [hb, ih]
    · simp [hb, ih]

theorem awardPot_potInv (s : GameState) (w : Int) (h : PotInv s) :
    PotInv (awardPotToLastPlayer s w) := by
  unfold PotInv at h ⊢
  have hpot : (awardPotToLastPlayer s w).pot = s.pot := rfl
  have hsum : sumTotalBet (awardPotToLastPlayer s w).players = sumTotalBet s.players := by
    show sumTotalBet (s.players.set w.toNat _) = _
    exact sum_set_preserve Player.totalBet s.players w.toNat _ rfl
  rw [hpot, hsum, h]

theorem awardLoop_sum : ∀ (ws : List (Nat × EvalResult)) (players : List Player)
    (results : List ShowdownAward) (share rem : ℤ),
    sumTotalBet (awardLoop players results ws share rem).1 = sumTotalBet players := by
  intro ws
  induction ws with
  | nil =>
    intro players results share rem
    rfl
  | cons w rest ih =>
    intro players results share rem
    have hunfold : awardLoop players results (w :: rest) share rem =
        awardLoop
          (players.set w.1
            { players.getD w.1 default with
              chips := (players.getD w.1 default).chips + share + rem })
          (addResult results (players.getD w.1 default) (share + rem) w.2) rest share 0 := rfl
    rw [hunfold, ih]
    exact sum_set_preserve Player.totalBet players w.1 _ rfl

theorem potAward_sum (community : List Card) (acc : List Player × List ShowdownAward)
    (pot : SidePot) : sumTotalBet (potAward community acc pot).1 = sumTotalBet acc.1 := by
  simp only [potAward]
  cases hs : sortEvals ((pot.eligible.filter (fun i => !(acc.1.getD i default).folded)).map
      (fun i => (i, evaluate ((acc.1.getD i default).hand ++ community)))) with
  | nil => rfl
  | cons best rest => exact awardLoop_sum _ _ _ _ _

theorem foldl_potAward_sum (community : List Card) :
    ∀ (pots : List SidePot) (acc : List Player × List ShowdownAward),
    sumTotalBet (pots.foldl (potAward community) acc).1 = sumTotalBet acc.1 := by
  intro pots
  induction pots with
  | nil =>
    intro acc
    rfl
  | cons pot t ih =>
    intro acc
    rw [List.foldl_cons, ih, potAward_sum]

theorem showdown_potInv (s : GameState) (h : PotInv s) : PotInv (showdown s) := by
  unfold PotInv at h ⊢
  have hpot : (showdown s).pot = s.pot := rfl
  have hsum : sumTotalBet (showdown s).players = sumTotalBet s.players := by
    show sumTotalBet ((calculateSidePots { s with stage := Stage.SHOWDOWN }).foldl
        (potAward s.communityCards) (s.players, ([] : List ShowdownAward))).1 =
      sumTotalBet s.players
    exact foldl_potAward_sum s.communityCards _ _
  rw [hpot, hsum, h]

theorem advanceStage_potInv : ∀ (fuel : Nat) (s : GameState),
    PotInv s → PotInv (advanceStage s fuel) := by
  intro fuel
  induction fuel with
  | zero =>
    intro s h
    exact h
  | succ fuel ih =>
    intro s h
    have hs₁ : PotInv ({ s with
        players := s.players.map (fun p => { p with bet := 0, acted := false })
        lastRaiseSize := s.bigBlind } : GameState) := by
      unfold PotInv at h ⊢
      show s.pot = sumTotalBet (s.players.map _)
      unfold sumTotalBet
      rw [sum_map_of_comp s.players (fun p => { p with bet := 0, acted := false })
        Player.totalBet Player.totalBet (fun x _ => rfl)]
      exact h
    show PotInv (advanceStage s (fuel + 1))
    simp only [advanceStage]
    split_ifs with h1 h2 h3
    · exact awardPot_potInv _ _ hs₁
    · exact showdown_potInv _ hs₁
    · apply ih
      cases hst : s.stage <;> exact hs₁
    · cases hst : s.stage <;> exact hs₁

theorem advanceAction_potInv (s : GameState) (h : PotInv s) : PotInv (advanceAction s) := by
  simp only [advanceAction]
  split_ifs with h1 h2
  · exact advanceStage_potInv stageFuel s h
  · exact advanceStage_potInv stageFuel s h
  · cases hl : advanceActionLoop s s.players.length
        (nextActionablePlayerIndex s s.currentPlayerIndex) with
    | some idx => exact h
    | none => exact advanceStage_potInv stageFuel s h

theorem handleFold_potInv (s : GameState) (idx : Int) (h : PotInv s) :
    PotInv (handleFold s idx).2 := by
  have hs₁ : PotInv ({ s with players := setPlayer s.players idx { getPlayer s.players idx with folded := true, acted := true } } : GameState) := by
    unfold PotInv sumTotalBet at h ⊢
    exact h.trans (Eq.symm (sum_set_preserve Player.totalBet s.players idx.toNat { getPlayer s.players idx with folded := true, acted := true } rfl))
  simp only [handleFold]
  split_ifs with h1
  · exact awardPot_potInv _ _ hs₁
  · exact advanceAction_potInv _ hs₁

theorem handleCheck_potInv (s : GameState) (idx : Int) (maxBet : ℤ) (h : PotInv s) :
    PotInv (handleCheck s idx maxBet).2 := by
  simp only [handleCheck]
  split_ifs with h1
  · exact h
  · apply advanceAction_potInv
    unfold PotInv sumTotalBet at h ⊢
    exact h.trans (Eq.symm (sum_set_preserve Player.totalBet s.players idx.toNat { getPlayer s.players idx with acted := true } rfl))

theorem handleCall_potInv (s : GameState) (idx : Int) (maxBet : ℤ)
    (hi : idx.toNat < s.players.length) (h : PotInv s) :
    PotInv (handleCall s idx maxBet).2 := by
  simp only [handleCall, getPlayer, setPlayer]
  split_ifs with h1 h2
  · exact h
  all_goals
  · apply advanceAction_potInv
    unfold PotInv at h ⊢
    dsimp only
    unfold sumTotalBet at h ⊢
    rw [sum_map_set Player.totalBet s.players idx.toNat _ hi]
    dsimp only
    omega

theorem clearActed_totalBet_sum_m (ps : List Player) (keep : Int) :
    (List.map Player.totalBet (clearActedExcept ps keep)).sum =
      (List.map Player.totalBet ps).sum := clearActed_totalBet_sum ps keep

theorem sum_set_bet_update (l : List Player) (i : Nat) (q : Player) (b : ℤ)
    (hq : q = l.getD i default) :
    ((l.set i { q with bet := b }).map Player.totalBet).sum = (l.map Player.totalBet).sum :=
  sum_set_preserve Player.totalBet l i _ (by rw [hq])

theorem handleRaise_potInv (s : GameState) (idx : Int) (raiseTo maxBet : ℤ)
    (hi : idx.toNat < s.players.length) (h : PotInv s) :
    PotInv (handleRaise s idx raiseTo maxBet).2 := by
  simp only [handleRaise, getPlayer, setPlayer]
  split_ifs with h1 h2 h3 h4
  · exact h
  · exact h
  · exact h
  all_goals
  · apply advanceAction_potInv
    unfold PotInv
    try dsimp only
    rw [clearActed_totalBet_sum]
    unfold sumTotalBet
    rw [sum_map_set Player.totalBet s.players idx.toNat _ hi]
    try dsimp only
    unfold PotInv sumTotalBet at h
    omega

theorem allInBet_potInv (s : GameState) (idx : Int) (maxBet : ℤ)
    (hi : idx.toNat < s.players.length) (h : PotInv s) :
    PotInv (allInBet s idx maxBet) := by
  simp only [allInBet, getPlayer, setPlayer]
  split_ifs with h1 h2
  all_goals
  · unfold PotInv
    try dsimp only
    unfold sumTotalBet
    rw [sum_set_bet_update _ _ _ _ rfl]
    try rw [clearActed_totalBet_sum_m]
    rw [sum_map_set Player.totalBet s.players idx.toNat _ hi]
    try dsimp only
    unfold PotInv sumTotalBet at h
    omega

theorem handleAllIn_potInv (s : GameState) (idx : Int) (maxBet : ℤ)
    (hi : idx.toNat < s.players.length) (h : PotInv s) :
    PotInv (handleAllIn s idx maxBet).2 := by
  have hbet : PotInv (allInBet s idx maxBet) := allInBet_potInv s idx maxBet hi h
  simp only [handleAllIn]
  split_ifs with h1
  · exact awardPot_potInv _ _ hbet
  · exact advanceAction_potInv _ hbet

theorem findIdxOr_ne_neg_one (pred : Player → Bool) (ps : List Player)
    (h : findIdxOr pred ps ≠ -1) :
    0 ≤ findIdxOr pred ps ∧ findIdxOr pred ps < (ps.length : Int) :=
  findIdxP_ne_neg_one (fun _ p => pred p) ps h

theorem handleAction_potInv (s : GameState) (pid : Nat) (act : String) (amt : ℤ)
    (h : PotInv s) : PotInv (handleAction s pid act amt).2 := by
  simp only [handleAction]
  split_ifs with h1 h2 h3 h4 h5 h6 h7 h8 h9
  · exact h
  · exact h
  · exact h
  · exact h
  · exact handleFold_potInv s _ h
  · exact handleCheck_potInv s _ _ h
  · refine handleCall_potInv s _ _ ?_ h
    have hb := findIdxOr_ne_neg_one (fun p => p.id == pid) s.players h1
    omega
  · refine handleRaise_potInv s _ amt _ ?_ h
    have hb := findIdxOr_ne_neg_one (fun p => p.id == pid) s.players h1
    omega
  · refine handleAllIn_potInv s _ _ ?_ h
    have hb := findIdxOr_ne_neg_one (fun p => p.id == pid) s.players h1
    omega
  · exact h

theorem findIdxOr_found (pred : Player → Bool) (ps : List Player) (t : Nat)
    (ht : t < ps.length) (hp : pred (ps.getD t default) = true) :
    0 ≤ findIdxOr pred ps ∧ findIdxOr pred ps < (ps.length : Int) ∧
    pred (ps.getD (findIdxOr pred ps).toNat default) = true :=
  findIdxP_found (fun _ p => pred p) ps t ht hp

theorem blinds_inv (s₂ : GameState) (sbIdx bbIdx : Int) (sb bb : ℤ)
    (hz : ∀ p ∈ s₂.players, p.totalBet = 0) (hpot : s₂.pot = 0)
    (hsb : sbIdx.toNat < s₂.players.length) (hbb : bbIdx.toNat < s₂.players.length)
    (hne : sbIdx.toNat ≠ bbIdx.toNat) :
    PotInv (markBB (markSB (postBlind (postBlind s₂ sbIdx sb) bbIdx bb) sbIdx) bbIdx) := by
  obtain ⟨A, hpotA, hsumA⟩ := postBlind_delta s₂ sbIdx sb hsb
  have hlen1 : (postBlind s₂ sbIdx sb).players.length = s₂.players.length :=
    postBlind_length s₂ sbIdx sb
  obtain ⟨B, hpotB, hsumB⟩ := postBlind_delta (postBlind s₂ sbIdx sb) bbIdx bb
    (by rw [hlen1]; exact hbb)
  have htb_sb : (s₂.players.getD sbIdx.toNat default).totalBet = 0 := by
    apply hz
    rw [List.getD_eq_getElem s₂.players default hsb]
    exact List.getElem_mem hsb
  have htb_bb : ((postBlind s₂ sbIdx sb).players.getD bbIdx.toNat default).totalBet = 0 := by
    rw [postBlind_getD_ne s₂ sbIdx sb bbIdx.toNat (by omega)]
    apply hz
    rw [List.getD_eq_getElem s₂.players default hbb]
    exact List.getElem_mem hbb
  have hsum0 : sumTotalBet s₂.players = 0 := by
    unfold sumTotalBet
    apply List.sum_eq_zero
    intro x hx
    obtain ⟨p, hp, rfl⟩ := List.mem_map.mp hx
    exact hz p hp
  unfold PotInv
  rw [markBB_pot, markSB_pot, markBB_sum, markSB_sum, hpotB, hpotA, hsumB, hsumA,
    htb_sb, htb_bb, hsum0, hpot]
  ring

theorem advanceDealer_cases (s : GameState) (hnz : (getPlayersInHand s).length ≠ 0) :
    (advanceDealer s).dealerIndex = 0 ∨
    (0 ≤ (advanceDealer s).dealerIndex ∧
      (advanceDealer s).dealerIndex < (s.players.length : Int) ∧
      (s.players.getD (advanceDealer s).dealerIndex.toNat default).sittingOut = false) := by
  unfold advanceDealer
  split_ifs with h1 h2
  · exact absurd h1 hnz
  · left
    rfl
  · right
    have hw : 1 ≤ (s.players.filter (fun p => !p.sittingOut)).length := by
      unfold getPlayersInHand at hnz
      omega
    obtain ⟨t, ht, hpt⟩ := one_filter_index (fun p => !p.sittingOut) s.players hw
    obtain ⟨ha, hb, hc⟩ := searchFrom_found (fun p => !p.sittingOut) s.players
      s.dealerIndex t ht hpt
    refine ⟨ha, hb, ?_⟩
    simp only [getPlayer] at hc
    simpa using hc

theorem finish_potInv (s₃ : GameState) (X Y : Int) (h : PotInv s₃) :
    PotInv { { s₃ with
      players := (dealHands s₃.players s₃.deck).1
      deck := (dealHands s₃.players s₃.deck).2
      stage := Stage.PRE_FLOP
      currentPlayerIndex := X } with lastRaiserIndex := Y } := by
  unfold PotInv sumTotalBet at h ⊢
  show s₃.pot = (List.map Player.totalBet (dealHands s₃.players s₃.deck).1).sum
  rw [dealHands_totalBet]
  exact h

theorem headsUp_blinds_potInv (s₂ : GameState)
    (hz : ∀ p ∈ s₂.players, p.totalBet = 0) (hpot : s₂.pot = 0)
    (hfil2 : (s₂.players.filter (fun p => !p.sittingOut)).length = 2)
    (hdich : s₂.dealerIndex = 0 ∨ (0 ≤ s₂.dealerIndex ∧
      s₂.dealerIndex < (s₂.players.length : Int) ∧
      (s₂.players.getD s₂.dealerIndex.toNat default).sittingOut = false)) :
    PotInv (markBB (markSB (postBlind (postBlind s₂
      (findIdxOr (fun p => !p.sittingOut &&
        p.seat == (getPlayer s₂.players s₂.dealerIndex).seat) s₂.players) s₂.smallBlind)
      (findIdxP (fun i p => !p.sittingOut && ((i : Int) !=
        findIdxOr (fun p => !p.sittingOut &&
          p.seat == (getPlayer s₂.players s₂.dealerIndex).seat) s₂.players)) s₂.players)
      s₂.bigBlind)
      (findIdxOr (fun p => !p.sittingOut &&
        p.seat == (getPlayer s₂.players s₂.dealerIndex).seat) s₂.players))
      (findIdxP (fun i p => !p.sittingOut && ((i : Int) !=
        findIdxOr (fun p => !p.sittingOut &&
          p.seat == (getPlayer s₂.players s₂.dealerIndex).seat) s₂.players)) s₂.players)) := by
  have hn2 : 2 ≤ s₂.players.length := by
    have := List.length_filter_le (fun p => !p.sittingOut) s₂.players
    omega
  set sbI := findIdxOr (fun p => !p.sittingOut &&
    p.seat == (getPlayer s₂.players s₂.dealerIndex).seat) s₂.players with hsbI
  set bbI := findIdxP (fun i p => !p.sittingOut && ((i : Int) != sbI)) s₂.players with hbbI
  obtain ⟨t₁, t₂, ht12, ht₁, ht₂, hp₁, hp₂⟩ :=
    two_filter_indices (fun p => !p.sittingOut) s₂.players (by omega)
  by_cases hsb1 : sbI = -1
  · have hps0 : (s₂.players.getD 0 default).sittingOut = true := by
      by_contra hps0f
      have hps0f' : (s₂.players.getD 0 default).sittingOut = false :=
        eq_false_of_ne_true hps0f
      rcases hdich with hd0 | ⟨hd1, hd2, hd3⟩
      · have hw : ((fun p => !p.sittingOut &&
            p.seat == (getPlayer s₂.players s₂.dealerIndex).seat)
            (s₂.players.getD 0 default)) = true := by
          dsimp only
          rw [Bool.and_eq_true]
          constructor
          · rw [hps0f']
            rfl
          · rw [hd0]
            exact beq_self_eq_true _
        obtain ⟨hge, _, _⟩ := findIdxOr_found (fun p => !p.sittingOut &&
          p.seat == (getPlayer s₂.players s₂.dealerIndex).seat) s₂.players 0 (by omega) hw
        rw [← hsbI] at hge
        omega
      · have hw : ((fun p => !p.sittingOut &&
            p.seat == (getPlayer s₂.players s₂.dealerIndex).seat)
            (s₂.players.getD s₂.dealerIndex.toNat default)) = true := by
          dsimp only
          rw [Bool.and_eq_true]
          constructor
          · rw [hd3]
            rfl
          · exact beq_self_eq_true _
        obtain ⟨hge, _, _⟩ := findIdxOr_found (fun p => !p.sittingOut &&
          p.seat == (getPlayer s₂.players s₂.dealerIndex).seat) s₂.players
          s₂.dealerIndex.toNat (by omega) hw
        rw [← hsbI] at hge
        omega
    have hw : ((fun (i : Nat) (p : Player) => !p.sittingOut && ((i : Int) != sbI)) t₁
        (s₂.players.getD t₁ default)) = true := by
      dsimp only
      rw [Bool.and_eq_true]
      refine ⟨hp₁, ?_⟩
      rw [hsb1, bne_iff_ne]
      omega
    obtain ⟨hbge, hblt, hbpred⟩ := findIdxP_found
      (fun (i : Nat) (p : Player) => !p.sittingOut && ((i : Int) != sbI)) s₂.players t₁ ht₁ hw
    rw [← hbbI] at hbge hblt hbpred
    try dsimp only at hbpred
    rw [Bool.and_eq_true] at hbpred
    have hbact : (s₂.players.getD bbI.toNat default).sittingOut = false := by
      have hx := hbpred.1
      simpa using hx
    have hbne0 : bbI.toNat ≠ 0 := by
      intro he
      rw [he, hps0] at hbact
      exact absurd hbact (by simp)
    refine blinds_inv s₂ sbI bbI s₂.smallBlind s₂.bigBlind hz hpot ?_ ?_ ?_
    · rw [hsb1]
      have hx : ((-1 : ℤ)).toNat = 0 := rfl
      omega
    · omega
    · rw [hsb1]
      have hx : ((-1 : ℤ)).toNat = 0 := rfl
      omega
  · have hb := findIdxOr_ne_neg_one (fun p => !p.sittingOut &&
      p.seat == (getPlayer s₂.players s₂.dealerIndex).seat) s₂.players
      (by rw [← hsbI]; exact hsb1)
    rw [← hsbI] at hb
    obtain ⟨hge, hlt⟩ := hb
    obtain ⟨t, ht, hpt, htne⟩ : ∃ t, t < s₂.players.length ∧
        (!(s₂.players.getD t default).sittingOut) = true ∧ (t : Int) ≠ sbI := by
      by_cases hteq : (t₁ : Int) = sbI
      · exact ⟨t₂, ht₂, hp₂, by omega⟩
      · exact ⟨t₁, ht₁, hp₁, hteq⟩
    have hw : ((fun (i : Nat) (p : Player) => !p.sittingOut && ((i : Int) != sbI)) t
        (s₂.players.getD t default)) = true := by
      dsimp only
      rw [Bool.and_eq_true]
      refine ⟨hpt, ?_⟩
      rw [bne_iff_ne]
      exact htne
    obtain ⟨hbge, hblt, hbpred⟩ := findIdxP_found
      (fun (i : Nat) (p : Player) => !p.sittingOut && ((i : Int) != sbI)) s₂.players t ht hw
    rw [← hbbI] at hbge hblt hbpred
    try dsimp only at hbpred
    rw [Bool.and_eq_true] at hbpred
    have hbneq : ((bbI.toNat : Int)) ≠ sbI := by
      have hx := hbpred.2
      rw [bne_iff_ne] at hx
      exact hx
    exact blinds_inv s₂ sbI bbI s₂.smallBlind s₂.bigBlind hz hpot (by omega) (by omega)
      (by omega)

theorem multiway_blinds_potInv (s₂ : GameState)
    (hz : ∀ p ∈ s₂.players, p.totalBet = 0) (hpot : s₂.pot = 0)
    (hunf : ∀ p ∈ s₂.players, p.folded = false)
    (hact2 : 2 ≤ (s₂.players.filter (fun p => !p.sittingOut)).length) :
    PotInv (markBB (markSB (postBlind (postBlind s₂
      (nextActivePlayerIndex s₂ s₂.dealerIndex) s₂.smallBlind)
      (nextActivePlayerIndex s₂ (nextActivePlayerIndex s₂ s₂.dealerIndex)) s₂.bigBlind)
      (nextActivePlayerIndex s₂ s₂.dealerIndex))
      (nextActivePlayerIndex s₂ (nextActivePlayerIndex s₂ s₂.dealerIndex))) := by
  have hfc : s₂.players.filter (fun p => !p.folded && !p.sittingOut) =
      s₂.players.filter (fun p => !p.sittingOut) :=
    List.filter_congr (fun x hx => by rw [hunf x hx]; rfl)
  obtain ⟨t₁, t₂, ht12, ht₁, ht₂, hp₁, hp₂⟩ :=
    two_filter_indices (fun p => !p.folded && !p.sittingOut) s₂.players
      (by rw [hfc]; omega)
  obtain ⟨ha1, ha2, _⟩ := searchFrom_found (fun p => !p.folded && !p.sittingOut)
    s₂.players s₂.dealerIndex t₁ ht₁ hp₁
  obtain ⟨t, ht, hpt, htne⟩ : ∃ t, t < s₂.players.length ∧
      ((fun p => !p.folded && !p.sittingOut) (s₂.players.getD t default)) = true ∧
      (t : Int) ≠ searchFrom (fun p => !p.folded && !p.sittingOut) s₂.players
        s₂.dealerIndex := by
    by_cases hteq : (t₁ : Int) =
        searchFrom (fun p => !p.folded && !p.sittingOut) s₂.players s₂.dealerIndex
    · exact ⟨t₂, ht₂, hp₂, by omega⟩
    · exact ⟨t₁, ht₁, hp₁, hteq⟩
  obtain ⟨hb1, hb2, _, hbne⟩ := searchFrom_found_ne (fun p => !p.folded && !p.sittingOut)
    s₂.players (searchFrom (fun p => !p.folded && !p.sittingOut) s₂.players s₂.dealerIndex)
    ha1 ha2 t ht hpt htne
  have hsbeq : nextActivePlayerIndex s₂ s₂.dealerIndex =
      searchFrom (fun p => !p.folded && !p.sittingOut) s₂.players s₂.dealerIndex := rfl
  rw [hsbeq]
  rw [show nextActivePlayerIndex s₂ (searchFrom (fun p => !p.folded && !p.sittingOut)
      s₂.players s₂.dealerIndex) =
    searchFrom (fun p => !p.folded && !p.sittingOut) s₂.players
      (searchFrom (fun p => !p.folded && !p.sittingOut) s₂.players s₂.dealerIndex) from rfl]
  exact blinds_inv s₂ _ _ s₂.smallBlind s₂.bigBlind hz hpot (by omega) (by omega) (by omega)

theorem startHand_potInv (s : GameState) (freshDeck : List Card)
    (h : (startHand s freshDeck).1 = true) : PotInv (startHand s freshDeck).2 := by
  by_cases hel : (s.players.filter (fun p => decide (0 < p.chips) && !p.disconnected)).length < 2
  · simp only [startHand] at h
    rw [if_pos hel] at h
    simp at h
  · simp only [startHand]
    rw [if_neg hel]
    set s₁ : GameState := { s with
      players := s.players.map resetPlayerForHand
      handNumber := s.handNumber + 1
      deck := freshDeck
      communityCards := []
      pot := 0
      winners := none
      lastRaiseSize := s.bigBlind } with hs₁
    set s₂ := advanceDealer s₁ with hs₂
    have hpl21 : s₂.players = s₁.players := by rw [hs₂, advanceDealer_players]
    have hply : s₂.players = s.players.map resetPlayerForHand := by rw [hpl21, hs₁]
    have hpot2 : s₂.pot = 0 := by rw [hs₂, advanceDealer_pot, hs₁]
    have hz : ∀ p ∈ s₂.players, p.totalBet = 0 := by
      rw [hply]
      exact reset_all_zero s.players
    have hunf : ∀ p ∈ s₂.players, p.folded = false := by
      rw [hply]
      exact reset_all_unfolded s.players
    have hcount : (s₂.players.filter (fun p => !p.sittingOut)).length =
        (s.players.filter (fun p => decide (0 < p.chips) && !p.disconnected)).length := by
      rw [hply]
      exact reset_filter_length s.players
    by_cases hhu : (getPlayersInHand s₂).length = 2
    · rw [if_pos hhu, if_pos hhu]
      unfold getPlayersInHand at hhu
      apply finish_potInv
      apply headsUp_blinds_potInv s₂ hz hpot2 hhu
      have hnz1 : (getPlayersInHand s₁).length ≠ 0 := by
        unfold getPlayersInHand
        rw [← hpl21]
        omega
      have hd := advanceDealer_cases s₁ hnz1
      rw [← hs₂] at hd
      rcases hd with h0 | ⟨h1, h2, h3⟩
      · exact Or.inl h0
      · refine Or.inr ⟨h1, ?_, ?_⟩
        · rw [hpl21]
          exact h2
        · rw [hpl21]
          exact h3
    · rw [if_neg hhu, if_neg hhu]
      apply finish_potInv
      apply multiway_blinds_potInv s₂ hz hpot2 hunf
      omega

/-- C1: for every reachable state of a hand in progress — after a
successful `startHand` from any engine state and after every
`handleAction` call (successful or rejected; payout never clears the
pot field before the next hand) — the `pot` field equals the sum over
all seats of `totalBet`. -/
theorem reachable_pot_invariant (s : GameState) (h : ReachableInHand s) : PotInv s := by
  induction h with
  | start s₀ d hsucc => exact startHand_potInv s₀ d hsucc
  | step s₀ pid act amt hr hsucc ih => exact handleAction_potInv s₀ pid act amt ih

theorem reachable_pot_invariant_witness :
    ReachableInHand (startHand c1base []).2 ∧ PotInv (startHand c1base []).2 := by
  have hr : ReachableInHand (startHand c1base []).2 :=
    ReachableInHand.start c1base [] (by decide)
  exact ⟨hr, reachable_pot_invariant _ hr⟩

end LocalPoker
